import Mathlib

/-!
Verification of the n8n-cli repository: a two-stage pipeline that compiles an
OpenAPI document into a command tree (tools/gen_command_tree.rs) and a runtime
that builds and executes HTTP requests from bound arguments (src/main.rs).
All definitions below are shallow embeddings of the Rust source; JSON
documents are modelled by the inductive `N8n.Value`, with objects kept as
association lists (serde_json uses a sorted key map, so concrete documents are
written with sorted keys).
-/

namespace N8n

/-- The set of characters Rust `char::is_whitespace` accepts (Unicode
White_Space property). -/
def rustIsWhitespace (c : Char) : Bool :=
  [0x9, 0xA, 0xB, 0xC, 0xD, 0x20, 0x85, 0xA0, 0x1680,
   0x2000, 0x2001, 0x2002, 0x2003, 0x2004, 0x2005, 0x2006, 0x2007,
   0x2008, 0x2009, 0x200A, 0x2028, 0x2029, 0x202F, 0x205F, 0x3000].contains c.toNat

/-- Rust `str::trim_start`. -/
def rustTrimStart (s : String) : String :=
  String.mk (s.toList.dropWhile rustIsWhitespace)

/-- Rust `str::trim` (both ends). -/
def rustTrim (s : String) : String :=
  String.mk (((s.toList.dropWhile rustIsWhitespace).reverse.dropWhile rustIsWhitespace).reverse)

/-- Rust `str::trim_end_matches('/')`: remove every trailing slash. -/
def trimEndSlashes (s : String) : String :=
  String.mk ((s.toList.reverse.dropWhile (· = '/')).reverse)

/-- Rust `str::trim_matches('-')`: remove leading and trailing hyphen runs. -/
def trimDashes (l : List Char) : List Char :=
  ((l.dropWhile (· = '-')).reverse.dropWhile (· = '-')).reverse

/-- Prefix test on strings by character list (Rust `str::starts_with`). -/
def strStartsWith (s pre : String) : Bool :=
  pre.toList.isPrefixOf s.toList

/-- Suffix test on strings by character list (Rust `str::ends_with`). -/
def strEndsWith (s suf : String) : Bool :=
  suf.toList.reverse.isPrefixOf s.toList.reverse

/-- Rust `str::trim_start_matches(pat)`: repeatedly strip a leading
occurrence of `pat` (used with the non-empty pattern made of a hash and a
slash). Fuel bounds the repetition by the string length. -/
def stripRepeatedGo (pat : List Char) : Nat → List Char → List Char
  | 0, cs => cs
  | n + 1, cs =>
    if pat ≠ [] ∧ pat.isPrefixOf cs then stripRepeatedGo pat n (cs.drop pat.length) else cs

def stripRepeated (pat s : String) : String :=
  String.mk (stripRepeatedGo pat.toList (s.toList.length + 1) s.toList)

/-- Rust `str::split` on a single separator character: splitting the empty
string yields one empty piece, and separators at the ends yield empty
pieces. -/
def splitOnChar (sep : Char) : List Char → List (List Char)
  | [] => [[]]
  | c :: rest =>
    match splitOnChar sep rest with
    | [] => [[c]]
    | g :: gs => if c = sep then [] :: g :: gs else (c :: g) :: gs

def splitSlash (s : String) : List String :=
  (splitOnChar '/' s.toList).map String.mk

/-- Rust `str::replace(pat, rep)`: replace every non-overlapping occurrence,
left to right. Fuel bounds the scan by the input length; it is always
sufficient because every step consumes at least one character (all call sites
use a non-empty pattern). -/
def replaceAllGo (pat rep : List Char) : Nat → List Char → List Char
  | 0, cs => cs
  | n + 1, cs =>
    if pat ≠ [] ∧ pat.isPrefixOf cs then
      rep ++ replaceAllGo pat rep n (cs.drop pat.length)
    else
      match cs with
      | [] => []
      | c :: rest => c :: replaceAllGo pat rep n rest

def replaceAll (s pat rep : String) : String :=
  String.mk (replaceAllGo pat.toList rep.toList (s.length + 1) s.toList)

/-- Numeric value of a digit run, most significant first. -/
def digitsVal (cs : List Char) : Nat :=
  cs.foldl (fun a c => a * 10 + (c.toNat - 48)) 0

/-- Hex digit value (both cases), as used for JSON unicode escapes. -/
def hexVal (c : Char) : Option Nat :=
  if '0' ≤ c ∧ c ≤ '9' then some (c.toNat - 48)
  else if 'a' ≤ c ∧ c ≤ 'f' then some (c.toNat - 87)
  else if 'A' ≤ c ∧ c ≤ 'F' then some (c.toNat - 55)
  else none

/-- Uppercase hex digit character, as emitted by percent encoding. -/
def hexDigitChar (n : Nat) : Char :=
  if n < 10 then Char.ofNat (48 + n) else Char.ofNat (55 + n)

/-- UTF-8 bytes of one character. -/
def utf8Bytes (c : Char) : List Nat :=
  let n := c.toNat
  if n < 0x80 then [n]
  else if n < 0x800 then [0xC0 + n / 64, 0x80 + n % 64]
  else if n < 0x10000 then [0xE0 + n / 4096, 0x80 + n / 64 % 64, 0x80 + n % 64]
  else [0xF0 + n / 262144, 0x80 + n / 4096 % 64, 0x80 + n / 64 % 64, 0x80 + n % 64]

/-- The `urlencoding::encode` unreserved set: ASCII alphanumerics plus
hyphen, period, underscore and tilde. -/
def urlUnreserved (c : Char) : Bool :=
  c.isAlphanum ∨ c = '-' ∨ c = '.' ∨ c = '_' ∨ c = '~'

/-- `urlencoding::encode`: keep unreserved characters, percent-encode every
UTF-8 byte of the rest with uppercase hex. -/
def percentEncode (s : String) : String :=
  String.mk (s.toList.flatMap fun c =>
    if urlUnreserved c then [c]
    else (utf8Bytes c).flatMap fun b => ['%', hexDigitChar (b / 16), hexDigitChar (b % 16)])

/-! ## JSON values

`Value` models `serde_json::Value`. Numbers keep the i64/u64 integer variants
as `int` and the floating variant as an exact rational `rat` (the embedding
works with exact decimal values instead of IEEE doubles; no claim below
depends on rounding). Objects are association lists maintained in sorted key
order, mirroring the crate's sorted map. -/

inductive Value where
  | null : Value
  | bool (b : Bool) : Value
  | int (i : Int) : Value
  | rat (q : Rat) : Value
  | str (s : String) : Value
  | arr (xs : List Value) : Value
  | obj (fields : List (String × Value)) : Value

/-- First-match key lookup in an object field list. -/
def lookupField : List (String × Value) → String → Option Value
  | [], _ => none
  | (k', v) :: rest, k => if k' = k then some v else lookupField rest k

namespace Value

/-- `serde_json::Value::get` with a string index: key lookup on objects,
`None` on everything else. -/
def get : Value → String → Option Value
  | obj fields, k => lookupField fields k
  | _, _ => none

/-- `Value::as_str`. -/
def asStr : Value → Option String
  | str s => some s
  | _ => none

/-- `Value::as_array`. -/
def asArr : Value → Option (List Value)
  | arr xs => some xs
  | _ => none

/-- `Value::as_bool`. -/
def asBool : Value → Option Bool
  | bool b => some b
  | _ => none

/-- `Value::as_object` (fields of an object). -/
def asObj : Value → Option (List (String × Value))
  | obj fields => some fields
  | _ => none

mutual

/-- Structural size of a JSON value, used to bound recursion. -/
def size : Value → Nat
  | null => 1
  | bool _ => 1
  | int _ => 1
  | rat _ => 1
  | str _ => 1
  | arr xs => 1 + sizeList xs
  | obj fields => 1 + sizeFields fields

def sizeList : List Value → Nat
  | [] => 0
  | v :: rest => size v + sizeList rest

def sizeFields : List (String × Value) → Nat
  | [] => 0
  | (_, v) :: rest => size v + sizeFields rest

end

mutual

/-- True when no object anywhere in the value carries a reference key
(a key equal to the literal `$ref`). -/
def noRef : Value → Bool
  | null => true
  | bool _ => true
  | int _ => true
  | rat _ => true
  | str _ => true
  | arr xs => noRefList xs
  | obj fields => noRefFields fields

def noRefList : List Value → Bool
  | [] => true
  | v :: rest => noRef v && noRefList rest

def noRefFields : List (String × Value) → Bool
  | [] => true
  | (k, v) :: rest => decide (k ≠ "$ref") && noRef v && noRefFields rest

end

end Value

/-! ## JSON parsing (`serde_json::from_str`)

A recursive-descent parser over the character list, with a fuel parameter
that bounds the call depth; `parseJson` supplies fuel `2 * length + 4`,
which is always sufficient because every second call in a chain consumes at
least one input character. Objects are built with a sorted insert (last
value wins on a duplicate key), mirroring the crate's map. -/

/-- Lexicographic comparison of character lists by code point, the order
Rust uses for strings (UTF-8 byte order coincides with code-point order). -/
def strLtL : List Char → List Char → Bool
  | [], [] => false
  | [], _ :: _ => true
  | _ :: _, [] => false
  | a :: as, b :: bs =>
    if a.toNat < b.toNat then true
    else if b.toNat < a.toNat then false
    else strLtL as bs

/-- Rust string ordering (`String::cmp` strict part). -/
def strLt (a b : String) : Bool :=
  strLtL a.toList b.toList

/-- JSON whitespace accepted by serde_json. -/
def jsonWs (c : Char) : Bool :=
  c = ' ' ∨ c = '\t' ∨ c = '\n' ∨ c = '\r'

def skipWs (cs : List Char) : List Char :=
  cs.dropWhile jsonWs

/-- Sorted insert into an object field list: keys strictly ascending,
a duplicate key replaces the stored value. -/
def objInsert (fields : List (String × Value)) (k : String) (v : Value) :
    List (String × Value) :=
  match fields with
  | [] => [(k, v)]
  | (k', v') :: rest =>
    if strLt k k' then (k, v) :: (k', v') :: rest
    else if k = k' then (k, v) :: rest
    else (k', v') :: objInsert rest k v

/-- Decode the body of a JSON string literal after the opening quote.
Returns the decoded characters and the input after the closing quote. -/
def pStringBody : Nat → List Char → Option (List Char × List Char)
  | 0, _ => none
  | _ + 1, [] => none
  | n + 1, c :: rest =>
    if c = '"' then some ([], rest)
    else if c = '\\' then
      match rest with
      | [] => none
      | e :: rest2 =>
        let simple : Option Char :=
          if e = '"' then some '"'
          else if e = '\\' then some '\\'
          else if e = '/' then some '/'
          else if e = 'b' then some (Char.ofNat 8)
          else if e = 'f' then some (Char.ofNat 12)
          else if e = 'n' then some '\n'
          else if e = 'r' then some '\r'
          else if e = 't' then some '\t'
          else none
        match simple with
        | some d => (pStringBody n rest2).map fun (cs, rem) => (d :: cs, rem)
        | none =>
          if e = 'u' then
            match rest2 with
            | h1 :: h2 :: h3 :: h4 :: rest3 =>
              match hexVal h1, hexVal h2, hexVal h3, hexVal h4 with
              | some a, some b, some c2, some d =>
                let code := a * 4096 + b * 256 + c2 * 16 + d
                if 0xD800 ≤ code ∧ code ≤ 0xDBFF then
                  match rest3 with
                  | '\\' :: 'u' :: g1 :: g2 :: g3 :: g4 :: rest4 =>
                    match hexVal g1, hexVal g2, hexVal g3, hexVal g4 with
                    | some a2, some b2, some c3, some d2 =>
                      let lo := a2 * 4096 + b2 * 256 + c3 * 16 + d2
                      if 0xDC00 ≤ lo ∧ lo ≤ 0xDFFF then
                        let combined := 0x10000 + (code - 0xD800) * 1024 + (lo - 0xDC00)
                        (pStringBody n rest4).map fun (cs, rem) =>
                          (Char.ofNat combined :: cs, rem)
                      else none
                    | _, _, _, _ => none
                  | _ => none
                else if 0xDC00 ≤ code ∧ code ≤ 0xDFFF then none
                else (pStringBody n rest3).map fun (cs, rem) => (Char.ofNat code :: cs, rem)
              | _, _, _, _ => none
            | _ => none
          else none
    else if c.toNat < 0x20 then none
    else (pStringBody n rest).map fun (cs, rem) => (c :: cs, rem)

/-- Build the `Value` for a parsed JSON number, following serde_json:
an integer literal becomes the integer variant when it fits in i64/u64
(negative zero and out-of-range literals fall back to the floating variant);
anything with a fraction or exponent becomes the floating variant, kept here
as an exact rational. -/
def mkJsonNumber (neg : Bool) (intDs fracDs : List Char) (expNeg : Bool)
    (expDs : List Char) : Value :=
  if fracDs = [] ∧ expDs = [] then
    let mag := digitsVal intDs
    if neg then
      if mag = 0 then Value.rat 0
      else if mag ≤ 2 ^ 63 then Value.int (-(mag : Int))
      else Value.rat (-(mag : Rat))
    else if mag < 2 ^ 64 then Value.int mag
    else Value.rat mag
  else
    let mantissa : Int := (if neg then -1 else 1) * (digitsVal (intDs ++ fracDs) : Int)
    let exp : Int := (if expNeg then -(digitsVal expDs : Int) else digitsVal expDs)
      - fracDs.length
    Value.rat ((mantissa : Rat) * (10 : Rat) ^ exp)

/-- Parse a JSON number at the head of the input (grammar of RFC 8259:
optional minus, `0` or a nonzero-led digit run, optional fraction, optional
exponent). Returns the value and the rest of the input. -/
def pNumber (cs : List Char) : Option (Value × List Char) :=
  let (neg, cs1) : Bool × List Char :=
    match cs with
    | '-' :: rest => (true, rest)
    | _ => (false, cs)
  match cs1 with
  | [] => none
  | c :: _ =>
    if ¬ c.isDigit then none
    else
      let intDs : List Char := if c = '0' then ['0'] else cs1.takeWhile Char.isDigit
      let cs2 := cs1.drop intDs.length
      let (fracDs, cs3) : List Char × List Char :=
        match cs2 with
        | '.' :: rest =>
          let ds := rest.takeWhile Char.isDigit
          (ds, rest.drop ds.length)
        | _ => ([], cs2)
      if cs2 ≠ cs3 ∧ fracDs = [] then none
      else
        match cs3 with
        | e :: rest =>
          if e = 'e' ∨ e = 'E' then
            let (expNeg, rest2) : Bool × List Char :=
              match rest with
              | '-' :: r => (true, r)
              | '+' :: r => (false, r)
              | _ => (false, rest)
            let expDs := rest2.takeWhile Char.isDigit
            if expDs = [] then none
            else some (mkJsonNumber neg intDs fracDs expNeg expDs, rest2.drop expDs.length)
          else some (mkJsonNumber neg intDs fracDs false [], cs3)
        | [] => some (mkJsonNumber neg intDs fracDs false [], cs3)

mutual

/-- Parse one JSON value at the head of the input (fuel-bounded). -/
def pValue : Nat → List Char → Option (Value × List Char)
  | 0, _ => none
  | n + 1, cs =>
    match cs with
    | [] => none
    | c :: rest =>
      if c = 'n' then
        if rest.take 3 = ['u', 'l', 'l'] then some (Value.null, rest.drop 3) else none
      else if c = 't' then
        if rest.take 3 = ['r', 'u', 'e'] then some (Value.bool true, rest.drop 3) else none
      else if c = 'f' then
        if rest.take 4 = ['a', 'l', 's', 'e'] then some (Value.bool false, rest.drop 4)
        else none
      else if c = '"' then
        (pStringBody (rest.length + 1) rest).map fun (body, rem) =>
          (Value.str (String.mk body), rem)
      else if c = '[' then
        match skipWs rest with
        | ']' :: rem => some (Value.arr [], rem)
        | cs2 => pElems n cs2 []
      else if c = '{' then
        match skipWs rest with
        | '}' :: rem => some (Value.obj [], rem)
        | cs2 => pMembers n cs2 []
      else if c = '-' ∨ c.isDigit then pNumber cs
      else none

/-- Parse array elements (after at least one element is known to follow). -/
def pElems : Nat → List Char → List Value → Option (Value × List Char)
  | 0, _, _ => none
  | n + 1, cs, acc =>
    match pValue n cs with
    | none => none
    | some (v, rest) =>
      match skipWs rest with
      | ',' :: rest2 => pElems n (skipWs rest2) (acc ++ [v])
      | ']' :: rest2 => some (Value.arr (acc ++ [v]), rest2)
      | _ => none

/-- Parse object members (after at least one member is known to follow). -/
def pMembers : Nat → List Char → List (String × Value) →
    Option (Value × List Char)
  | 0, _, _ => none
  | n + 1, cs, acc =>
    match cs with
    | '"' :: rest =>
      match pStringBody (rest.length + 1) rest with
      | none => none
      | some (key, rest2) =>
        match skipWs rest2 with
        | ':' :: rest3 =>
          match pValue n (skipWs rest3) with
          | none => none
          | some (v, rest4) =>
            let acc2 := objInsert acc (String.mk key) v
            match skipWs rest4 with
            | ',' :: rest5 => pMembers n (skipWs rest5) acc2
            | '}' :: rest5 => some (Value.obj acc2, rest5)
            | _ => none
        | _ => none
    | _ => none

end

/-- `serde_json::from_str` on a whole document: optional surrounding
whitespace around exactly one JSON value. -/
def parseJson (s : String) : Option Value :=
  match pValue (2 * s.length + 4) (skipWs s.toList) with
  | some (v, rest) => if skipWs rest = [] then some v else none
  | none => none

/-! ## Scalar token coercion (main.rs, ValueCoercer) -/

/-- Rust `u8::to_ascii_lowercase` on a character. -/
def asciiLower (c : Char) : Char :=
  if 'A' ≤ c ∧ c ≤ 'Z' then Char.ofNat (c.toNat + 32) else c

def asciiLowerStr (s : String) : String :=
  String.mk (s.toList.map asciiLower)

/-- Split an optional leading sign, as Rust integer/float parsing does.
Returns (is-negative, rest). -/
def signSplit (cs : List Char) : Bool × List Char :=
  match cs with
  | '-' :: r => (true, r)
  | '+' :: r => (false, r)
  | _ => (false, cs)

/-- Grammar of `str::parse::<i64>`: optional sign then one or more ASCII
digits. -/
def i64Grammar (s : String) : Bool :=
  let ds := (signSplit s.toList).2
  ds ≠ [] ∧ ds.all Char.isDigit

def i64Neg (s : String) : Bool := (signSplit s.toList).1

/-- Magnitude of the digit run after the sign, base 10. -/
def i64Mag (s : String) : Nat := digitsVal (signSplit s.toList).2

/-- Range check of `i64`: magnitudes up to 2^63 for negatives and 2^63 - 1
for non-negatives. -/
def i64Fits (s : String) : Bool :=
  if i64Neg s then i64Mag s ≤ 2 ^ 63 else i64Mag s ≤ 2 ^ 63 - 1

/-- `str::parse::<i64>`: the signed base-10 value when the token is all
digits after an optional sign and the value fits, otherwise failure. -/
def parseI64 (s : String) : Option Int :=
  if i64Grammar s ∧ i64Fits s then
    some (if i64Neg s then -(i64Mag s : Int) else (i64Mag s : Int))
  else none

/-- Exponent suffix of the `f64` grammar: empty, or `e`/`E`, optional sign,
one or more digits consuming the whole rest. -/
def expGrammar : List Char → Bool
  | [] => true
  | c :: r =>
    if c = 'e' ∨ c = 'E' then
      let ds := (signSplit r).2
      ds ≠ [] ∧ ds.all Char.isDigit
    else false

/-- Decimal part of the `f64` grammar: digits, digits-dot-digits, digits-dot,
or dot-digits, each with an optional exponent. -/
def decGrammar (cs : List Char) : Bool :=
  let ds := cs.takeWhile Char.isDigit
  let r := cs.drop ds.length
  if ds = [] then
    match r with
    | '.' :: r2 =>
      let fs := r2.takeWhile Char.isDigit
      fs ≠ [] ∧ expGrammar (r2.drop fs.length)
    | _ => false
  else
    match r with
    | '.' :: r2 =>
      let fs := r2.takeWhile Char.isDigit
      expGrammar (r2.drop fs.length)
    | _ => expGrammar r

/-- Grammar of `str::parse::<f64>`: optional sign, then case-insensitive
`inf`/`infinity`/`nan` or a decimal number. -/
def isF64Syntax (s : String) : Bool :=
  let body := (signSplit s.toList).2
  let lower := String.mk (body.map asciiLower)
  if lower = "inf" ∨ lower = "infinity" ∨ lower = "nan" then true else decGrammar body

/-- The JSON value `json!` builds from a parsed `f64`: `Null` for the
non-finite named values, otherwise a number (held here as the exact rational
value of the decimal literal). -/
def f64Value (s : String) : Value :=
  let (neg, body) := signSplit s.toList
  let lower := String.mk (body.map asciiLower)
  if lower = "inf" ∨ lower = "infinity" ∨ lower = "nan" then Value.null
  else
    let ds := body.takeWhile Char.isDigit
    let r := body.drop ds.length
    let (fs, r2) : List Char × List Char :=
      match r with
      | '.' :: rr => (rr.takeWhile Char.isDigit, rr.drop (rr.takeWhile Char.isDigit).length)
      | _ => ([], r)
    let (expNeg, expDs) : Bool × List Char :=
      match r2 with
      | c :: rr => if c = 'e' ∨ c = 'E' then signSplit rr else (false, [])
      | [] => (false, [])
    let mantissa : Int := (if neg then -1 else 1) * (digitsVal (ds ++ fs) : Int)
    let e : Int :=
      (if expNeg then -(digitsVal expDs : Int) else (digitsVal expDs : Int)) - fs.length
    Value.rat ((mantissa : Rat) * (10 : Rat) ^ e)

/-- `parse_bool` (main.rs): case-insensitive true/1/yes and false/0/no. -/
def parse_bool (value : String) : Except String Bool :=
  let l := asciiLowerStr value
  if l = "true" ∨ l = "1" ∨ l = "yes" then .ok true
  else if l = "false" ∨ l = "0" ∨ l = "no" then .ok false
  else .error ("invalid boolean: " ++ value)

/-! ## Schema descriptors and the command tree data model -/

inductive SchemaDef where
  | mk (kind : String) (item : Option SchemaDef)

def SchemaDef.kind : SchemaDef → String
  | ⟨k, _⟩ => k

def SchemaDef.item : SchemaDef → Option SchemaDef
  | ⟨_, i⟩ => i

structure ParamDef where
  name : String
  flag : String
  location : String
  required : Bool
  schema : SchemaDef

structure InputField where
  name : String
  flag : String
  required : Bool
  schema : SchemaDef

structure BodyDef where
  required : Bool
  contentType : String
  schema : SchemaDef
  inputFields : List InputField

structure Operation where
  name : String
  method : String
  path : String
  summary : Option String
  description : Option String
  params : List ParamDef
  body : Option BodyDef

structure Resource where
  name : String
  ops : List Operation

structure CommandTree where
  version : String
  basePath : String
  resources : List Resource

/-- Bound command-line arguments: clap argument id to the list of supplied
values (absent id means the flag was not given). -/
abbrev Matches := List (String × List String)

def getArg (m : Matches) (k : String) : Option (List String) :=
  match m with
  | [] => none
  | (k', vs) :: rest => if k' = k then some vs else getArg rest k

/-- `ArgMatches::get_one::<String>`. -/
def getOne (m : Matches) (k : String) : Option String :=
  (getArg m k).bind List.head?

/-- `ArgMatches::get_many::<String>`. -/
def getMany (m : Matches) (k : String) : Option (List String) :=
  getArg m k

/-- `parse_scalar_value` (main.rs): dispatch on the schema kind. -/
def parse_scalar_value (schema : SchemaDef) (value : String) : Except String Value :=
  match schema.kind with
  | "integer" =>
    match parseI64 value with
    | some i => .ok (.int i)
    | none => .error "invalid integer"
  | "number" =>
    if isF64Syntax value then .ok (f64Value value) else .error "invalid float literal"
  | "boolean" => (parse_bool value).map Value.bool
  | "string" => .ok (.str value)
  | "object" =>
    match parseJson value with
    | some v => .ok v
    | none => .error "invalid JSON value"
  | "array" =>
    match parseJson value with
    | some v => .ok v
    | none => .error "invalid JSON value"
  | "unknown" =>
    match parseJson value with
    | some v => .ok v
    | none => .error "invalid JSON value"
  | _ => .ok (.str value)

/-- Multi-token branch of `parse_list_value`: coerce every token against the
item schema (the outer schema when no item schema is present), in order. -/
def parseListFallback (schema : SchemaDef) (values : List String) : Except String Value := do
  let items ← values.mapM (parse_scalar_value (schema.item.getD schema))
  return Value.arr items

/-- `parse_list_value` (main.rs): a single token whose trimmed text begins
with a bracket is parsed as one JSON document; otherwise every token is
coerced independently. -/
def parse_list_value (schema : SchemaDef) (values : List String) : Except String Value :=
  match values with
  | [v] =>
    if strStartsWith (rustTrimStart v) "[" then
      match parseJson v with
      | some parsed => .ok parsed
      | none => .error "invalid JSON list"
    else parseListFallback schema values
  | _ => parseListFallback schema values

/-! ## Name normalization (`to_kebab`, gen_command_tree.rs) -/

/-- The character loop of `to_kebab`; `out` is accumulated in reverse, so the
check that the output already ends with a hyphen is a head check. -/
def kebabGo : List Char → List Char → Bool → List Char
  | [], out, _ => out
  | c :: rest, out, prevLower =>
    if c = '_' ∨ c = ' ' then
      kebabGo rest (if out.head? = some '-' then out else '-' :: out) false
    else if c.isUpper then
      kebabGo rest (c.toLower :: (if prevLower then '-' :: out else out)) false
    else
      kebabGo rest (c :: out) (c.isLower ∨ c.isDigit)

/-- `to_kebab`: lowercase, hyphen at lower-to-upper transitions, underscore
and space become hyphens with runs collapsed, outer hyphens trimmed. -/
def to_kebab (s : String) : String :=
  String.mk (trimDashes (kebabGo s.toList [] false).reverse)

/-! ## JSON serialization (`serde_json::to_string`) -/

def braceOpen : String := String.singleton '{'
def braceClose : String := String.singleton '}'

/-- Escape one character of a JSON string per serde_json's compact writer. -/
def escapeChar (c : Char) : List Char :=
  if c = '"' then ['\\', '"']
  else if c = '\\' then ['\\', '\\']
  else if c = (Char.ofNat 8) then ['\\', 'b']
  else if c = '\t' then ['\\', 't']
  else if c = '\n' then ['\\', 'n']
  else if c = (Char.ofNat 12) then ['\\', 'f']
  else if c = '\r' then ['\\', 'r']
  else if c.toNat < 0x20 then
    ['\\', 'u', '0', '0', hexDigitChar (c.toNat / 16),
     Char.ofNat (if c.toNat % 16 < 10 then 48 + c.toNat % 16 else 87 + c.toNat % 16)]
  else [c]

def serializeString (s : String) : String :=
  String.mk ('"' :: s.toList.flatMap escapeChar ++ ['"'])

/-- Decimal digits of a proper fraction `num / den`, as the float writer
prints them (all call sites have terminating expansions; the fuel is a
generous bound on the digit count). -/
def fracDigitsGo : Nat → Nat → Nat → List Char
  | 0, _, _ => []
  | _ + 1, 0, _ => []
  | n + 1, num, den =>
    Char.ofNat (48 + num * 10 / den) :: fracDigitsGo n (num * 10 % den) den

/-- Display of a floating JSON number (ryu style: always one decimal
point). -/
def ratToString (q : Rat) : String :=
  let sign := if q < 0 then "-" else ""
  let n := q.num.natAbs
  let d := q.den
  if n % d = 0 then sign ++ toString (n / d) ++ ".0"
  else sign ++ toString (n / d) ++ "." ++ String.mk (fracDigitsGo 1100 (n % d) d)

mutual

/-- `serde_json::to_string` (compact). -/
def serialize : Value → String
  | .null => "null"
  | .bool b => if b then "true" else "false"
  | .int i => toString i
  | .rat q => ratToString q
  | .str s => serializeString s
  | .arr xs => "[" ++ serializeItems xs ++ "]"
  | .obj fs => braceOpen ++ serializeFields fs ++ braceClose

def serializeItems : List Value → String
  | [] => ""
  | [v] => serialize v
  | v :: rest => serialize v ++ "," ++ serializeItems rest

def serializeFields : List (String × Value) → String
  | [] => ""
  | [(k, v)] => serializeString k ++ ":" ++ serialize v
  | (k, v) :: rest => serializeString k ++ ":" ++ serialize v ++ "," ++ serializeFields rest

end

/-! ## Request building (main.rs, RequestBuilder) -/

/-- `value_to_query_string`: literal text form for scalars, `null` for the
JSON null, serialized JSON for composites. -/
def value_to_query_string (v : Value) : String :=
  match v with
  | .str s => s
  | .int i => toString i
  | .rat q => ratToString q
  | .bool b => if b then "true" else "false"
  | .null => "null"
  | v => serialize v

/-- Multi-token branch of `parse_list_for_query`. -/
def queryListFallback (schema : SchemaDef) (values : List String) :
    Except String (List String) :=
  values.mapM fun v =>
    (parse_scalar_value (schema.item.getD schema) v).map value_to_query_string

/-- `parse_list_for_query` (main.rs): single bracketed token parses as a JSON
array whose elements are rendered; otherwise per-token coercion. -/
def parse_list_for_query (schema : SchemaDef) (values : List String) :
    Except String (List String) :=
  match values with
  | [v] =>
    if strStartsWith (rustTrimStart v) "[" then
      match parseJson v with
      | none => .error "invalid JSON list"
      | some parsed =>
        match parsed.asArr with
        | none => .error "expected JSON array"
        | some items => .ok (items.map value_to_query_string)
    else queryListFallback schema values
  | _ => queryListFallback schema values

/-- `append_query_param` (main.rs): array parameters contribute one pair per
parsed element, scalar parameters one raw pair; an unbound parameter
contributes nothing. Keys are the declared parameter name. -/
def append_query_param (out : List (String × String)) (p : ParamDef) (m : Matches) :
    Except String (List (String × String)) :=
  if p.schema.kind = "array" then
    match getMany m p.name with
    | some values =>
      (parse_list_for_query p.schema values).map fun parsed =>
        out ++ parsed.map fun s => (p.name, s)
    | none => .ok out
  else
    match getOne m p.name with
    | some v => .ok (out ++ [(p.name, v)])
    | none => .ok out

/-- The query loop of `build_url`: every query-located parameter, in
declaration order. -/
def appendQueryAll (m : Matches) : List ParamDef → List (String × String) →
    Except String (List (String × String))
  | [], out => .ok out
  | p :: rest, out =>
    if p.location = "query" then
      match append_query_param out p m with
      | .error e => .error e
      | .ok out2 => appendQueryAll m rest out2
    else appendQueryAll m rest out

/-- Base path normalization in `build_url`: trim whitespace and ensure a
leading slash. -/
def effBasePath (basePath : String) : String :=
  let t := rustTrim basePath
  if strStartsWith t "/" then t else "/" ++ t

/-- API base in `build_url`: strip trailing slashes from the base URL and
append the base path unless the base URL already ends with it. -/
def apiBaseOf (baseUrl basePath : String) : String :=
  let base := trimEndSlashes baseUrl
  let bp := effBasePath basePath
  if strEndsWith base bp then base else base ++ bp

/-- The path token for a parameter name, an opening brace, the name, and a
closing brace. -/
def tokenOf (name : String) : String :=
  String.singleton '{' ++ name ++ String.singleton '}'

/-- The path-substitution loop of `build_url`: for every path-located
parameter, in order, replace its token with the percent-encoded bound value,
failing when no value is bound. -/
def substPathParams (m : Matches) : List ParamDef → String → Except String String
  | [], path => .ok path
  | p :: rest, path =>
    if p.location = "path" then
      match getOne m p.name with
      | none => .error ("missing required param --" ++ p.flag)
      | some v => substPathParams m rest (replaceAll path (tokenOf p.name) (percentEncode v))
    else substPathParams m rest path

/-- `build_url` (main.rs) up to URL parsing: the assembled URL string and the
collected query pairs. -/
def build_url (baseUrl basePath : String) (op : Operation) (m : Matches) :
    Except String (String × List (String × String)) := do
  let path ← substPathParams m op.params op.path
  let pairs ← appendQueryAll m op.params []
  return (apiBaseOf baseUrl basePath ++ path, pairs)

/-- `input_field_key` (main.rs). -/
def input_field_key (field : InputField) : String :=
  "body__" ++ field.name

/-- The field loop of `build_body_from_inputs`, inserting parsed values into
a sorted object map. -/
def bodyInputsGo (m : Matches) : List InputField → List (String × Value) →
    Except String (List (String × Value))
  | [], obj => .ok obj
  | f :: rest, obj =>
    let key := input_field_key f
    if f.schema.kind = "array" then
      match getMany m key with
      | some values =>
        match parse_list_value f.schema values with
        | .error e => .error e
        | .ok parsed => bodyInputsGo m rest (objInsert obj f.name parsed)
      | none => bodyInputsGo m rest obj
    else
      match getOne m key with
      | some v =>
        match parse_scalar_value f.schema v with
        | .error e => .error e
        | .ok parsed => bodyInputsGo m rest (objInsert obj f.name parsed)
      | none => bodyInputsGo m rest obj

/-- `build_body_from_inputs` (main.rs): assemble a JSON object from bound
input-field arguments; `none` when no field was bound. -/
def build_body_from_inputs (body : BodyDef) (m : Matches) : Except String (Option Value) := do
  let obj ← bodyInputsGo m body.inputFields []
  if obj.isEmpty then return none else return some (Value.obj obj)

/-- `build_body` (main.rs). The file system is passed as a map from path to
contents. -/
def build_body (fs : String → Option String) (op : Operation) (m : Matches) :
    Except String (Option Value) :=
  match op.body with
  | none =>
    if (getOne m "body").isSome ∨ (getOne m "body-file").isSome then
      .error "request does not accept a body"
    else .ok none
  | some body =>
    match getOne m "body", getOne m "body-file" with
    | some _, some _ => .error "use only one of --body or --body-file"
    | some raw, none =>
      match parseJson raw with
      | some parsed => .ok (some parsed)
      | none => .error "invalid JSON body"
    | none, some path =>
      match fs path with
      | none => .error ("failed to read body file " ++ path)
      | some contents =>
        match parseJson contents with
        | some parsed => .ok (some parsed)
        | none => .error "invalid JSON body file"
    | none, none =>
      let fromInputs : Except String (Option Value) :=
        if body.schema.kind = "object" ∧ ¬ body.inputFields.isEmpty then
          build_body_from_inputs body m
        else .ok none
      match fromInputs with
      | .error e => .error e
      | .ok (some v) => .ok (some v)
      | .ok none =>
        if body.required then .error "request body required" else .ok none

/-- The shape of a generated clap argument (id, long flag, repeatable,
required), as `build_param_arg` configures it. -/
structure ArgSpec where
  id : String
  long : String
  append : Bool
  required : Bool

/-- `build_param_arg` (main.rs): the argument id is the declared parameter
name, the long flag is the normalized flag token. -/
def build_param_arg (p : ParamDef) : ArgSpec :=
  { id := p.name, long := p.flag, append := p.schema.kind == "array",
    required := p.required }

/-- `build_input_field_arg` (main.rs). -/
def build_input_field_arg (f : InputField) : ArgSpec :=
  { id := input_field_key f, long := f.flag, append := f.schema.kind == "array",
    required := false }

/-! ## Response triage and output (main.rs, Executor and `run`) -/

structure HttpResponse where
  ok : Bool
  status : Nat
  body : Value
  raw : Value

/-- `StatusCode::is_success`: the 2xx range. -/
def statusIsSuccess (status : Nat) : Bool :=
  200 ≤ status ∧ status < 300

/-- Header map of the raw envelope (a sorted string map). -/
def headerMap (headers : List (String × String)) : List (String × Value) :=
  headers.foldl (fun acc kv => objInsert acc kv.1 (Value.str kv.2)) []

/-- Response triage of `send_request`: empty body text becomes JSON null,
unparsable text is wrapped as a JSON string, and the raw envelope carries
status, headers and body. -/
def mkHttpResponse (status : Nat) (headers : List (String × String)) (text : String) :
    HttpResponse :=
  let bodyValue :=
    if rustTrim text = "" then Value.null else (parseJson text).getD (Value.str text)
  let raw := Value.obj
    (objInsert
      (objInsert (objInsert [] "status" (Value.int status))
        "headers" (Value.obj (headerMap headers)))
      "body" bodyValue)
  { ok := statusIsSuccess status, status := status, body := bodyValue, raw := raw }

/-- Observable events of the tail of `run` after a response is obtained. -/
inductive OutputEvent where
  | printed (pretty : Bool) (v : Value)
  | failed (status : Nat)

/-- The tail of `run` (main.rs lines 56-68), serialized as an event trace:
the chosen output view is printed first; a non-success status then makes the
invocation return an error. -/
def runAfterResponse (pretty raw : Bool) (resp : HttpResponse) :
    List OutputEvent × Except String Unit :=
  let output := if raw then resp.raw else resp.body
  if resp.ok then
    ([OutputEvent.printed pretty output], .ok ())
  else
    ([OutputEvent.printed pretty output, OutputEvent.failed resp.status],
     .error ("http error: " ++ toString resp.status))

/-! ## Tree generation (tools/gen_command_tree.rs) -/

/-- Walk a local JSON pointer segment by segment. -/
def walkPtr : List String → Value → Option Value
  | [], v => some v
  | part :: rest, v =>
    match v.get part with
    | some next => walkPtr rest next
    | none => none

/-- `resolve_ref`: dereference a local `#/`-style reference by walking the
document; a non-string, non-local or unresolvable reference leaves the node
unchanged. -/
def resolve_ref (doc schema : Value) : Value :=
  match (schema.get "$ref").bind Value.asStr with
  | none => schema
  | some r =>
    if strStartsWith r "#/" then
      match walkPtr (splitSlash (stripRepeated "#/" r)) doc with
      | some v => v
      | none => schema
    else schema

/-- `schema_def`: resolve references, collapse composites to their first
branch, use the explicit type when present, else infer from properties or
items. The fuel bounds the recursion depth; the Rust source recurses without
any bound. -/
def schema_def : Nat → Value → Value → Option SchemaDef
  | 0, _, _ => none
  | n + 1, doc, schema =>
    let s := resolve_ref doc schema
    match (s.get "allOf").bind Value.asArr with
    | some (b :: _) => schema_def n doc b
    | _ =>
      match (s.get "oneOf").bind Value.asArr with
      | some (b :: _) => schema_def n doc b
      | _ =>
        match (s.get "type").bind Value.asStr with
        | some "object" => some ⟨"object", none⟩
        | some "array" =>
          match s.get "items" with
          | none => some ⟨"array", none⟩
          | some it => (schema_def n doc it).map fun d => ⟨"array", some d⟩
        | some k => some ⟨k, none⟩
        | none =>
          if (s.get "properties").isSome then some ⟨"object", none⟩
          else
            match s.get "items" with
            | none => some ⟨"unknown", none⟩
            | some it => (schema_def n doc it).map fun d => ⟨"array", some d⟩

/-- `parse_param`: a parameter without a name is skipped (inner `none`);
the outer option is fuel exhaustion of schema resolution. -/
def parse_param (fuel : Nat) (doc param : Value) : Option (Option ParamDef) :=
  let p := resolve_ref doc param
  let name := ((p.get "name").bind Value.asStr).getD ""
  if name = "" then some none
  else
    let location := ((p.get "in").bind Value.asStr).getD "query"
    let req := ((p.get "required").bind Value.asBool).getD false
    let schemaNode := (p.get "schema").getD Value.null
    (schema_def fuel doc schemaNode).map fun sd =>
      some { name := name, flag := to_kebab name, location := location,
             required := req, schema := sd }

/-- Order on `(location, name)` keys of the parameter map. -/
def keyLt (a b : String × String) : Bool :=
  strLt a.1 b.1 ∨ (a.1 = b.1 ∧ strLt a.2 b.2)

/-- Sorted insert into the `(location, name)`-keyed parameter map; a later
insert with an existing key overrides the stored entry. -/
def pmInsert (m : List ((String × String) × ParamDef)) (k : String × String)
    (v : ParamDef) : List ((String × String) × ParamDef) :=
  match m with
  | [] => [(k, v)]
  | (k', v') :: rest =>
    if keyLt k k' then (k, v) :: (k', v') :: rest
    else if k = k' then (k, v) :: rest
    else (k', v') :: pmInsert rest k v

def pmInsertParam (fuel : Nat) (doc : Value)
    (m : List ((String × String) × ParamDef)) (param : Value) :
    Option (List ((String × String) × ParamDef)) :=
  (parse_param fuel doc param).map fun
    | none => m
    | some d => pmInsert m (d.location, d.name) d

/-- `merge_params`: shared path-level entries first, then operation-level
entries overriding, output in key order. -/
def merge_params (fuel : Nat) (doc : Value) (pathParams opParams : List Value) :
    Option (List ParamDef) := do
  let m1 ← pathParams.foldlM (pmInsertParam fuel doc) []
  let m2 ← opParams.foldlM (pmInsertParam fuel doc) m1
  return m2.map (·.2)

/-- Stable insert used by the by-name sorts (`sort_by` in the source is a
stable sort): an element goes before the first strictly greater key. -/
def insertSortedBy (key : α → String) (x : α) : List α → List α
  | [] => [x]
  | y :: ys => if strLt (key y) (key x) then y :: insertSortedBy key x ys else x :: y :: ys

/-- Stable sort by a string key. -/
def sortByKey (key : α → String) (l : List α) : List α :=
  l.foldr (insertSortedBy key) []

/-- `input_fields_from_schema`: one field per declared property, flag
prefixed with `input-`, required by membership in the required list, sorted
by property name. -/
def input_fields_from_schema (fuel : Nat) (doc schema : Value) :
    Option (List InputField) :=
  let s := resolve_ref doc schema
  match (s.get "properties").bind Value.asObj with
  | none => some []
  | some props =>
    let reqList := (((s.get "required").bind Value.asArr).getD []).filterMap Value.asStr
    (props.mapM fun kv =>
      (schema_def fuel doc kv.2).map fun sd =>
        ({ name := kv.1, flag := "input-" ++ to_kebab kv.1,
           required := reqList.contains kv.1, schema := sd } : InputField)).map
      (sortByKey InputField.name)

/-- `parse_request_body`: select the JSON content type when present, else the
first declared one; expand input fields when the resolved schema is an
object. -/
def parse_request_body (fuel : Nat) (doc : Value) (rb : Option Value) :
    Option (Option BodyDef) :=
  match rb with
  | none => some none
  | some rbv =>
    let body := resolve_ref doc rbv
    let req := ((body.get "required").bind Value.asBool).getD false
    match (body.get "content").bind Value.asObj with
    | none => some none
    | some content =>
      let pick : Option (String × Option Value) :=
        match lookupField content "application/json" with
        | some item => some ("application/json", item.get "schema")
        | none =>
          match content.head? with
          | some (ct, item) => some (ct, item.get "schema")
          | none => none
      match pick with
      | none => some none
      | some (ct, schemaOpt) =>
        let schemaNode := schemaOpt.getD Value.null
        match schema_def fuel doc schemaNode with
        | none => none
        | some sd =>
          let fieldsOpt : Option (List InputField) :=
            if sd.kind = "object" then input_fields_from_schema fuel doc schemaNode
            else some []
          fieldsOpt.map fun fields =>
            some { required := req, contentType := ct, schema := sd,
                   inputFields := fields }

def asciiUpper (c : Char) : Char :=
  if 'a' ≤ c ∧ c ≤ 'z' then Char.ofNat (c.toNat - 32) else c

def asciiUpperStr (s : String) : String :=
  String.mk (s.toList.map asciiUpper)

def methodsList : List String := ["get", "post", "put", "patch", "delete"]

/-- One operation of the generator main loop: resource from the first tag,
name from the operation id (fallback `call`), merged parameters, parsed
body. -/
def buildOpFor (fuel : Nat) (doc : Value) (path mth : String)
    (opObj : List (String × Value)) (pathParams : List Value) :
    Option (String × Operation) :=
  let tag := ((((lookupField opObj "tags").bind Value.asArr).bind
    List.head?).bind Value.asStr).getD "default"
  let resource := to_kebab tag
  let opId := (((lookupField opObj "operationId").bind Value.asStr) <|>
    ((lookupField opObj "x-eov-operation-id").bind Value.asStr)).getD "call"
  let name := to_kebab opId
  match merge_params fuel doc pathParams opParamsOf with
  | none => none
  | some params =>
    match parse_request_body fuel doc (lookupField opObj "requestBody") with
    | none => none
    | some body =>
      some (resource,
        { name := name, method := asciiUpperStr mth, path := path,
          summary := (lookupField opObj "summary").bind Value.asStr,
          description := (lookupField opObj "description").bind Value.asStr,
          params := params, body := body })
where opParamsOf : List Value :=
  ((lookupField opObj "parameters").bind Value.asArr).getD []

/-- `resources.entry(key).or_default().push(op)` over the sorted resource
map. -/
def mapPush (m : List (String × List Operation)) (k : String) (op : Operation) :
    List (String × List Operation) :=
  match m with
  | [] => [(k, [op])]
  | (k', ops) :: rest =>
    if strLt k k' then (k, [op]) :: (k', ops) :: rest
    else if k = k' then (k', ops ++ [op]) :: rest
    else (k', ops) :: mapPush rest k op

/-- The method loop of the generator main function for one path item. -/
def collectMethods (fuel : Nat) (doc : Value) (path : String) (item : Value)
    (pathParams : List Value) : List String → List (String × List Operation) →
    Option (Except String (List (String × List Operation)))
  | [], acc => some (.ok acc)
  | mth :: rest, acc =>
    match item.get mth with
    | none => collectMethods fuel doc path item pathParams rest acc
    | some opv =>
      match opv.asObj with
      | none => some (.error "operation not object")
      | some opObj =>
        match buildOpFor fuel doc path mth opObj pathParams with
        | none => none
        | some (resource, op) =>
          collectMethods fuel doc path item pathParams rest (mapPush acc resource op)

/-- The path loop of the generator main function. -/
def collectOps (fuel : Nat) (doc : Value) : List (String × Value) →
    List (String × List Operation) →
    Option (Except String (List (String × List Operation)))
  | [], acc => some (.ok acc)
  | (path, item) :: rest, acc =>
    let pathParams := ((item.get "parameters").bind Value.asArr).getD []
    match collectMethods fuel doc path item pathParams methodsList acc with
    | none => none
    | some (.error e) => some (.error e)
    | some (.ok acc2) => collectOps fuel doc rest acc2

/-- The generator main function (tree construction part): version and base
path defaults, path-by-method operation collection, final per-resource sort
of operations by name. The outer option is fuel exhaustion of schema
resolution. -/
def buildTree (fuel : Nat) (doc : Value) : Option (Except String CommandTree) :=
  let version := (((doc.get "info").bind (·.get "version")).bind Value.asStr).getD "0"
  let basePath := (((((doc.get "servers").bind Value.asArr).bind
    List.head?).bind (·.get "url")).bind Value.asStr).getD "/api/v1"
  match (doc.get "paths").bind Value.asObj with
  | none => some (.error "paths missing")
  | some paths =>
    match collectOps fuel doc paths [] with
    | none => none
    | some (.error e) => some (.error e)
    | some (.ok acc) =>
      let resources := acc.map fun kv =>
        { name := kv.1, ops := sortByKey Operation.name kv.2 : Resource }
      some (.ok { version := version, basePath := basePath, resources := resources })

/-! ## Theorems -/

/-! ### C7: name normalization -/

lemma toNat_ofNat_valid (n : Nat) (h : n < 55296) : (Char.ofNat n).toNat = n := by
  unfold Char.ofNat
  rw [dif_pos (Or.inl h)]
  rfl

lemma isUpper_toNat (c : Char) (h : c.isUpper = true) : 65 ≤ c.toNat ∧ c.toNat ≤ 90 := by
  simp [Char.isUpper] at h
  exact ⟨h.1, h.2⟩

lemma toLower_eq_ofNat (c : Char) (h : c.isUpper = true) :
    c.toLower = Char.ofNat (c.toNat + 32) := by
  obtain ⟨h1, h2⟩ := isUpper_toNat c h
  unfold Char.toLower
  rw [if_pos]
  simp
  omega

lemma toNat_toLower (c : Char) (h : c.isUpper = true) : (c.toLower).toNat = c.toNat + 32 := by
  obtain ⟨h1, h2⟩ := isUpper_toNat c h
  rw [toLower_eq_ofNat c h, toNat_ofNat_valid]
  omega

lemma toLower_not_upper (c : Char) (h : c.isUpper = true) : (c.toLower).isUpper = false := by
  cases hb : (c.toLower).isUpper with
  | false => rfl
  | true =>
    exfalso
    have hlo := isUpper_toNat _ hb
    have ht := toNat_toLower c h
    obtain ⟨h1, h2⟩ := isUpper_toNat c h
    omega

lemma ne_of_toNat_ne (c d : Char) (h : c.toNat ≠ d.toNat) : c ≠ d := by
  intro he
  exact h (by rw [he])

/-- A character that the second normalization pass leaves untouched: not an
underscore, not a space, not an ASCII uppercase letter. -/
def GoodChar (c : Char) : Prop :=
  c ≠ '_' ∧ c ≠ ' ' ∧ c.isUpper = false

lemma goodChar_dash : GoodChar '-' := by
  refine ⟨by decide, by decide, by decide⟩

lemma goodChar_toLower (c : Char) (h : c.isUpper = true) : GoodChar (c.toLower) := by
  have ht := toNat_toLower c h
  obtain ⟨h1, h2⟩ := isUpper_toNat c h
  refine ⟨?_, ?_, toLower_not_upper c h⟩
  · apply ne_of_toNat_ne
    rw [ht]
    have h95 : Char.toNat '_' = 95 := rfl
    omega
  · apply ne_of_toNat_ne
    rw [ht]
    have h32 : Char.toNat ' ' = 32 := rfl
    omega

lemma kebabGo_good : ∀ (input out : List Char) (pl : Bool),
    (∀ c ∈ out, GoodChar c) → ∀ c ∈ kebabGo input out pl, GoodChar c := by
  intro input
  induction input with
  | nil =>
    intro out pl h c hc
    rw [kebabGo] at hc
    exact h c hc
  | cons a rest ih =>
    intro out pl hout c hc
    rw [kebabGo] at hc
    by_cases h1 : a = '_' ∨ a = ' '
    · rw [if_pos h1] at hc
      refine ih _ _ ?_ c hc
      intro d hd
      by_cases hh : out.head? = some '-'
      · rw [if_pos hh] at hd
        exact hout d hd
      · rw [if_neg hh] at hd
        rcases List.mem_cons.mp hd with hce | hd2
        · rw [hce]
          exact goodChar_dash
        · exact hout d hd2
    · rw [if_neg h1] at hc
      by_cases h2 : a.isUpper
      · rw [if_pos h2] at hc
        refine ih _ _ ?_ c hc
        intro d hd
        rcases List.mem_cons.mp hd with hce | hd2
        · rw [hce]
          exact goodChar_toLower a h2
        · by_cases hp : pl
          · rw [if_pos hp] at hd2
            rcases List.mem_cons.mp hd2 with hce | hd3
            · rw [hce]
              exact goodChar_dash
            · exact hout d hd3
          · rw [if_neg hp] at hd2
            exact hout d hd2
      · rw [if_neg h2] at hc
        refine ih _ _ ?_ c hc
        intro d hd
        rcases List.mem_cons.mp hd with hce | hd2
        · have ha1 : a ≠ '_' := fun he => h1 (Or.inl he)
          have ha2 : a ≠ ' ' := fun he => h1 (Or.inr he)
          rw [hce]
          exact ⟨ha1, ha2, Bool.not_eq_true _ |>.mp h2⟩
        · exact hout d hd2

lemma kebabGo_id : ∀ (input : List Char), (∀ c ∈ input, GoodChar c) →
    ∀ (out : List Char) (pl : Bool), kebabGo input out pl = input.reverse ++ out := by
  intro input
  induction input with
  | nil =>
    intro _ out pl
    rw [kebabGo]
    simp
  | cons a rest ih =>
    intro h out pl
    obtain ⟨h1, h2, h3⟩ := h a (List.mem_cons_self a rest)
    rw [kebabGo]
    rw [if_neg (by rintro (he | he); exacts [h1 he, h2 he])]
    rw [if_neg (by simp [h3])]
    rw [ih (fun c hc => h c (List.mem_cons_of_mem a hc)) (a :: out) _]
    simp

lemma dropWhile_idem (q : Char → Bool) (l : List Char) :
    (l.dropWhile q).dropWhile q = l.dropWhile q := by
  induction l with
  | nil => rfl
  | cons c t ih =>
    by_cases h : q c
    · simp [List.dropWhile_cons, h, ih]
    · simp [List.dropWhile_cons, h]

lemma length_dropWhile_le (q : Char → Bool) (l : List Char) :
    (l.dropWhile q).length ≤ l.length := by
  induction l with
  | nil => simp
  | cons c t ih =>
    by_cases h : q c
    · rw [List.dropWhile_cons, if_pos h]
      exact Nat.le_trans ih (Nat.le_succ _)
    · rw [List.dropWhile_cons, if_neg h]

lemma backTrim_front_stable (q : Char → Bool) (l : List Char)
    (h : l.dropWhile q = l) :
    ((l.reverse.dropWhile q).reverse).dropWhile q = (l.reverse.dropWhile q).reverse := by
  have hsuf : l.reverse.dropWhile q <:+ l.reverse := List.dropWhile_suffix q
  have hpre : (l.reverse.dropWhile q).reverse <+: l := by
    have hrp : (l.reverse.dropWhile q).reverse <+: l.reverse.reverse :=
      List.reverse_prefix.mpr hsuf
    rwa [List.reverse_reverse] at hrp
  obtain ⟨t, ht⟩ := hpre
  cases hc : (l.reverse.dropWhile q).reverse with
  | nil => simp
  | cons c cs =>
    have hl : l = c :: (cs ++ t) := by
      rw [← ht, hc]
      simp
    have hq : q c = false := by
      by_contra hqc
      have hqc2 : q c = true := by
        cases hqc3 : q c
        · exact absurd hqc3 hqc
        · rfl
      rw [hl, List.dropWhile_cons, if_pos hqc2] at h
      have hlen := length_dropWhile_le q (cs ++ t)
      simp at hlen
      have := congrArg List.length h
      simp at this
      omega
    rw [List.dropWhile_cons, if_neg (by simp [hq])]

lemma trimDashes_idem (l : List Char) : trimDashes (trimDashes l) = trimDashes l := by
  unfold trimDashes
  have hft : (((l.dropWhile (· = '-')).reverse.dropWhile (· = '-')).reverse).dropWhile (· = '-')
      = ((l.dropWhile (· = '-')).reverse.dropWhile (· = '-')).reverse :=
    backTrim_front_stable _ _ (dropWhile_idem _ l)
  rw [hft, List.reverse_reverse, dropWhile_idem]

lemma mem_of_mem_dropWhile {c : Char} {q : Char → Bool} {l : List Char}
    (h : c ∈ l.dropWhile q) : c ∈ l :=
  (List.dropWhile_suffix q).subset h

lemma mem_of_mem_trimDashes {c : Char} {l : List Char} (h : c ∈ trimDashes l) : c ∈ l := by
  unfold trimDashes at h
  rw [List.mem_reverse] at h
  have h2 := mem_of_mem_dropWhile h
  rw [List.mem_reverse] at h2
  exact mem_of_mem_dropWhile h2

lemma to_kebab_chars_good (s : String) : ∀ c ∈ (to_kebab s).toList, GoodChar c := by
  intro c hc
  have hc2 : c ∈ trimDashes (kebabGo s.toList [] false).reverse := hc
  have hc3 := mem_of_mem_trimDashes hc2
  rw [List.mem_reverse] at hc3
  exact kebabGo_good s.toList [] false (by intro d hd; cases hd) c hc3

/-- Claim C7: `to_kebab` lowercases, hyphenates lower-to-upper transitions,
turns underscore and space into hyphens collapsing runs, trims outer hyphens
(witnessed on the two given examples), and is idempotent on every input. -/
theorem c7_name_normalization :
    to_kebab "fooBarBaz" = "foo-bar-baz" ∧
    to_kebab "foo_bar baz" = "foo-bar-baz" ∧
    ∀ s : String, to_kebab (to_kebab s) = to_kebab s := by
  refine ⟨rfl, rfl, ?_⟩
  intro s
  show String.mk (trimDashes (kebabGo (to_kebab s).toList [] false).reverse) = to_kebab s
  rw [kebabGo_id (to_kebab s).toList (to_kebab_chars_good s) [] false]
  rw [List.append_nil, List.reverse_reverse]
  show String.mk (trimDashes (trimDashes (kebabGo s.toList [] false).reverse)) = to_kebab s
  rw [trimDashes_idem]
  rfl

/-! ### C8: termination of schema resolution -/

/-- A document whose schema `a` is an intersection whose first branch
references `a` itself: resolving the reference node loops. -/
def cyclicDoc : Value := Value.obj
  [("a", Value.obj [("allOf", Value.arr [Value.obj [("$ref", Value.str "#/a")]])])]

def refNode : Value := Value.obj [("$ref", Value.str "#/a")]

/-- Schema resolution diverges at a node: every fuel bound is exhausted. -/
def SchemaResolutionDiverges (doc node : Value) : Prop :=
  ∀ n, schema_def n doc node = none

lemma lookupField_mem {fields : List (String × Value)} {k : String} {v : Value}
    (h : lookupField fields k = some v) : (k, v) ∈ fields := by
  induction fields with
  | nil => cases h
  | cons kv rest ih =>
    obtain ⟨k', v'⟩ := kv
    rw [lookupField] at h
    by_cases he : k' = k
    · rw [if_pos he] at h
      cases h
      rw [he]
      exact List.mem_cons_self _ _
    · rw [if_neg he] at h
      exact List.mem_cons_of_mem _ (ih h)

lemma sizeFields_le_of_mem {fields : List (String × Value)} {k : String} {v : Value}
    (h : (k, v) ∈ fields) : Value.size v ≤ Value.sizeFields fields := by
  induction fields with
  | nil => cases h
  | cons kv rest ih =>
    rcases List.mem_cons.mp h with he | hm
    · rw [← he, Value.sizeFields]
      exact Nat.le_add_right _ _
    · obtain ⟨k', v'⟩ := kv
      rw [Value.sizeFields]
      exact Nat.le_trans (ih hm) (Nat.le_add_left _ _)

lemma size_field_lt {fields : List (String × Value)} {k : String} {v : Value}
    (h : (k, v) ∈ fields) : Value.size v < Value.size (Value.obj fields) := by
  have := sizeFields_le_of_mem h
  rw [Value.size]
  omega

lemma noRefFields_of_mem {fields : List (String × Value)} {k : String} {v : Value}
    (hn : Value.noRefFields fields = true) (h : (k, v) ∈ fields) :
    Value.noRef v = true := by
  induction fields with
  | nil => cases h
  | cons kv rest ih =>
    obtain ⟨k', v'⟩ := kv
    rw [Value.noRefFields, Bool.and_assoc, Bool.and_eq_true] at hn
    rw [Bool.and_eq_true] at hn
    rcases List.mem_cons.mp h with he | hm
    · cases he
      exact hn.2.1
    · exact ih hn.2.2 hm

lemma sizeList_le_of_mem {xs : List Value} {v : Value}
    (h : v ∈ xs) : Value.size v ≤ Value.sizeList xs := by
  induction xs with
  | nil => cases h
  | cons x rest ih =>
    rcases List.mem_cons.mp h with he | hm
    · rw [he, Value.sizeList]
      exact Nat.le_add_right _ _
    · rw [Value.sizeList]
      exact Nat.le_trans (ih hm) (Nat.le_add_left _ _)

lemma noRefList_of_mem {xs : List Value} {v : Value}
    (hn : Value.noRefList xs = true) (h : v ∈ xs) : Value.noRef v = true := by
  induction xs with
  | nil => cases h
  | cons x rest ih =>
    rw [Value.noRefList, Bool.and_eq_true] at hn
    rcases List.mem_cons.mp h with he | hm
    · rw [he]
      exact hn.1
    · exact ih hn.2 hm

lemma noRefFields_lookup_ref {fields : List (String × Value)}
    (hn : Value.noRefFields fields = true) : lookupField fields "$ref" = none := by
  induction fields with
  | nil => rfl
  | cons kv rest ih =>
    obtain ⟨k', v'⟩ := kv
    rw [Value.noRefFields, Bool.and_assoc, Bool.and_eq_true] at hn
    rw [lookupField]
    rw [if_neg (by simpa using of_decide_eq_true hn.1)]
    exact ih (Bool.and_eq_true _ _ |>.mp hn.2).2

lemma noRef_get_ref {node : Value} (hn : Value.noRef node = true) :
    node.get "$ref" = none := by
  cases node with
  | obj fields => exact noRefFields_lookup_ref hn
  | null => rfl
  | bool b => rfl
  | int i => rfl
  | rat q => rfl
  | str s => rfl
  | arr xs => rfl

lemma resolve_ref_noRef {doc node : Value} (hn : Value.noRef node = true) :
    resolve_ref doc node = node := by
  rw [resolve_ref, noRef_get_ref hn]
  rfl

/-- Size one: every value has positive size. -/
lemma size_pos (v : Value) : 1 ≤ Value.size v := by
  cases v <;> rw [Value.size] <;> omega

/-- Membership data extracted from a successful composite lookup. -/
lemma get_bind_asArr {node : Value} {l : List Value} {k : String}
    (h : (node.get k).bind Value.asArr = some l) :
    ∃ fields, node = Value.obj fields ∧ (k, Value.arr l) ∈ fields := by
  rcases hb : node.get k with _ | av
  · rw [hb] at h
    cases h
  · rw [hb] at h
    cases av with
    | arr xs =>
      cases h
      cases node with
      | obj fields =>
        exact ⟨fields, rfl, lookupField_mem hb⟩
      | null => cases hb
      | bool b => cases hb
      | int i => cases hb
      | rat q => cases hb
      | str s => cases hb
      | arr ys => cases hb
    | null => cases h
    | bool b => cases h
    | int i => cases h
    | rat q => cases h
    | str s => cases h
    | obj fs => cases h

lemma get_mem_fields {node v : Value} {k : String} (h : node.get k = some v) :
    ∃ fields, node = Value.obj fields ∧ (k, v) ∈ fields := by
  cases node with
  | obj fields => exact ⟨fields, rfl, lookupField_mem h⟩
  | null => cases h
  | bool b => cases h
  | int i => cases h
  | rat q => cases h
  | str s => cases h
  | arr ys => cases h

lemma noRef_size_of_composite {node b : Value} {bs : List Value} {k : String}
    (hn : Value.noRef node = true)
    (h : (node.get k).bind Value.asArr = some (b :: bs)) :
    Value.noRef b = true ∧ Value.size b < Value.size node := by
  obtain ⟨fields, rfl, hmem⟩ := get_bind_asArr h
  have hnb : Value.noRef (Value.arr (b :: bs)) = true :=
    noRefFields_of_mem hn hmem
  rw [Value.noRef] at hnb
  constructor
  · exact noRefList_of_mem hnb (List.mem_cons_self _ _)
  · have h1 : Value.size b ≤ Value.sizeList (b :: bs) :=
      sizeList_le_of_mem (List.mem_cons_self _ _)
    have h2 : Value.size (Value.arr (b :: bs)) < Value.size (Value.obj fields) :=
      size_field_lt hmem
    rw [Value.size] at h2
    omega

lemma noRef_size_of_item {node it : Value} (hn : Value.noRef node = true)
    (h : node.get "items" = some it) :
    Value.noRef it = true ∧ Value.size it < Value.size node := by
  obtain ⟨fields, rfl, hmem⟩ := get_mem_fields h
  exact ⟨noRefFields_of_mem hn hmem, size_field_lt hmem⟩

lemma c8_no_composites (doc : Value) (k : Nat) (node : Value)
    (ih : ∀ m, Value.noRef m = true → Value.size m ≤ k →
      (schema_def k doc m).isSome = true)
    (hn : Value.noRef node = true) (hs : Value.size node ≤ k + 1)
    (h1 : (node.get "allOf").bind Value.asArr = none ∨
      (node.get "allOf").bind Value.asArr = some [])
    (h2 : (node.get "oneOf").bind Value.asArr = none ∨
      (node.get "oneOf").bind Value.asArr = some []) :
    (schema_def (k + 1) doc node).isSome = true := by
  rw [schema_def, resolve_ref_noRef hn]
  rcases h1 with h1 | h1 <;> rcases h2 with h2 | h2 <;> simp only [h1, h2] <;>
  · split
    · rfl
    · split
      · rfl
      · rename_i it h4
        obtain ⟨hni, hsi⟩ := noRef_size_of_item hn h4
        obtain ⟨d, hd⟩ := Option.isSome_iff_exists.mp (ih it hni (by omega))
        rw [hd]
        rfl
    · rfl
    · split
      · rfl
      · split
        · rfl
        · rename_i it h4
          obtain ⟨hni, hsi⟩ := noRef_size_of_item hn h4
          obtain ⟨d, hd⟩ := Option.isSome_iff_exists.mp (ih it hni (by omega))
          rw [hd]
          rfl

lemma schema_def_noRef_terminates (doc : Value) :
    ∀ (n : Nat) (node : Value), Value.noRef node = true → Value.size node ≤ n →
      (schema_def n doc node).isSome = true := by
  intro n
  induction n with
  | zero =>
    intro node hn hs
    have := size_pos node
    omega
  | succ k ih =>
    intro node hn hs
    rcases h1 : (node.get "allOf").bind Value.asArr with _ | l1
    · rcases h2 : (node.get "oneOf").bind Value.asArr with _ | l2
      · exact c8_no_composites doc k node ih hn hs (Or.inl h1) (Or.inl h2)
      · rcases l2 with _ | ⟨b2, bs2⟩
        · exact c8_no_composites doc k node ih hn hs (Or.inl h1) (Or.inr h2)
        · obtain ⟨hb, hsz⟩ := noRef_size_of_composite hn h2
          rw [schema_def, resolve_ref_noRef hn]
          simp only [h1, h2]
          exact ih b2 hb (by omega)
    · rcases l1 with _ | ⟨b1, bs1⟩
      · rcases h2 : (node.get "oneOf").bind Value.asArr with _ | l2
        · exact c8_no_composites doc k node ih hn hs (Or.inr h1) (Or.inl h2)
        · rcases l2 with _ | ⟨b2, bs2⟩
          · exact c8_no_composites doc k node ih hn hs (Or.inr h1) (Or.inr h2)
          · obtain ⟨hb, hsz⟩ := noRef_size_of_composite hn h2
            rw [schema_def, resolve_ref_noRef hn]
            simp only [h1, h2]
            exact ih b2 hb (by omega)
      · obtain ⟨hb, hsz⟩ := noRef_size_of_composite hn h1
        rw [schema_def, resolve_ref_noRef hn]
        simp only [h1]
        exact ih b1 hb (by omega)

/-- Claim C8, counterexample: the Rust resolver has no cycle guard, so on a
document whose schema references itself through a composite first branch the
resolution exhausts every recursion bound (the call never returns). -/
theorem c8_counterexample : SchemaResolutionDiverges cyclicDoc refNode := by
  intro n
  induction n with
  | zero => rfl
  | succ k ih =>
    have hstep : schema_def (k + 1) cyclicDoc refNode =
        schema_def k cyclicDoc refNode := rfl
    rw [hstep]
    exact ih

/-- Claim C8 (amended): schema resolution terminates on every reference-free
schema node — fuel equal to the node size suffices for any document — but the
resolver has no cycle guard, so resolution of a schema that transitively
references itself through a composite branch does not terminate (see the
counterexample). -/
theorem c8_resolution_termination :
    ∀ (doc node : Value), Value.noRef node = true →
      ∀ n, Value.size node ≤ n → (schema_def n doc node).isSome = true :=
  fun doc node hn n hs => schema_def_noRef_terminates doc n node hn hs

/-- Witness for C8: the amended termination theorem applied to a concrete
reference-free schema node. -/
theorem c8_resolution_termination_witness :
    Value.noRef (Value.obj [("type", Value.str "string")]) = true ∧
    Value.size (Value.obj [("type", Value.str "string")]) ≤ 3 ∧
    (schema_def 3 Value.null (Value.obj [("type", Value.str "string")])).isSome = true :=
  ⟨by decide, by decide,
    c8_resolution_termination Value.null _ (by decide) 3 (by decide)⟩

/-! ### C3: schema resolution case analysis -/

/-- A composite key is absent or empty on a node (no usable first branch). -/
def NoBranch (v : Value) (k : String) : Prop :=
  (v.get k).bind Value.asArr = none ∨ (v.get k).bind Value.asArr = some []

/-- Claim C3: `schema_def` collapses a composite to its first listed branch,
recursively resolved; an explicit type field wins and maps directly to the
kind, with arrays resolving items into a nested descriptor; absent a type it
infers object from a properties map, array from an items node, and unknown
otherwise. Stated as the complete case analysis of one resolution step. -/
theorem c3_schema_resolution (n : Nat) (doc s : Value) :
    (∀ b bs, ((resolve_ref doc s).get "allOf").bind Value.asArr = some (b :: bs) →
        schema_def (n + 1) doc s = schema_def n doc b) ∧
    (∀ b bs, NoBranch (resolve_ref doc s) "allOf" →
        ((resolve_ref doc s).get "oneOf").bind Value.asArr = some (b :: bs) →
        schema_def (n + 1) doc s = schema_def n doc b) ∧
    (NoBranch (resolve_ref doc s) "allOf" → NoBranch (resolve_ref doc s) "oneOf" →
      (((resolve_ref doc s).get "type").bind Value.asStr = some "object" →
          schema_def (n + 1) doc s = some ⟨"object", none⟩) ∧
      (((resolve_ref doc s).get "type").bind Value.asStr = some "array" →
          (resolve_ref doc s).get "items" = none →
          schema_def (n + 1) doc s = some ⟨"array", none⟩) ∧
      (∀ it, ((resolve_ref doc s).get "type").bind Value.asStr = some "array" →
          (resolve_ref doc s).get "items" = some it →
          schema_def (n + 1) doc s =
            (schema_def n doc it).map fun d => ⟨"array", some d⟩) ∧
      (∀ kd, ((resolve_ref doc s).get "type").bind Value.asStr = some kd →
          kd ≠ "object" → kd ≠ "array" →
          schema_def (n + 1) doc s = some ⟨kd, none⟩) ∧
      (((resolve_ref doc s).get "type").bind Value.asStr = none →
          ((resolve_ref doc s).get "properties").isSome = true →
          schema_def (n + 1) doc s = some ⟨"object", none⟩) ∧
      (((resolve_ref doc s).get "type").bind Value.asStr = none →
          ((resolve_ref doc s).get "properties").isSome = false →
          (resolve_ref doc s).get "items" = none →
          schema_def (n + 1) doc s = some ⟨"unknown", none⟩) ∧
      (∀ it, ((resolve_ref doc s).get "type").bind Value.asStr = none →
          ((resolve_ref doc s).get "properties").isSome = false →
          (resolve_ref doc s).get "items" = some it →
          schema_def (n + 1) doc s =
            (schema_def n doc it).map fun d => ⟨"array", some d⟩)) := by
  refine ⟨?_, ?_, ?_⟩
  · intro b bs h
    simp only [schema_def, h]
  · intro b bs hA h
    rcases hA with hA | hA <;> simp only [schema_def, hA, h]
  · intro hA hB
    refine ⟨?_, ?_, ?_, ?_, ?_, ?_, ?_⟩
    · intro ht
      rcases hA with hA | hA <;> rcases hB with hB | hB <;>
        simp only [schema_def, hA, hB, ht]
    · intro ht hit
      rcases hA with hA | hA <;> rcases hB with hB | hB <;>
        simp only [schema_def, hA, hB, ht, hit]
    · intro it ht hit
      rcases hA with hA | hA <;> rcases hB with hB | hB <;>
        simp only [schema_def, hA, hB, ht, hit]
    · intro kd ht hk1 hk2
      rcases hA with hA | hA <;> rcases hB with hB | hB <;>
        simp only [schema_def, hA, hB, ht]
    · intro ht hp
      rcases hA with hA | hA <;> rcases hB with hB | hB <;>
        simp only [schema_def, hA, hB, ht, hp, if_true]
    · intro ht hp hit
      rcases hA with hA | hA <;> rcases hB with hB | hB <;>
        simp only [schema_def, hA, hB, ht, hp, hit, Bool.false_eq_true, if_false]
    · intro it ht hp hit
      rcases hA with hA | hA <;> rcases hB with hB | hB <;>
        simp only [schema_def, hA, hB, ht, hp, hit, Bool.false_eq_true, if_false]

/-- Witness for C3: the case equations applied at concrete documents — an
intersection collapsing to its first branch and an explicit array type with
integer items. -/
theorem c3_schema_resolution_witness :
    schema_def 2 Value.null
        (Value.obj [("allOf", Value.arr [Value.obj [("type", Value.str "string")]]),
                    ("type", Value.str "integer")]) =
      some ⟨"string", none⟩ ∧
    schema_def 2 Value.null
        (Value.obj [("items", Value.obj [("type", Value.str "integer")]),
                    ("type", Value.str "array")]) =
      some ⟨"array", some ⟨"integer", none⟩⟩ := by
  constructor
  · have h := (c3_schema_resolution 1 Value.null
      (Value.obj [("allOf", Value.arr [Value.obj [("type", Value.str "string")]]),
                  ("type", Value.str "integer")])).1
      (Value.obj [("type", Value.str "string")]) [] (by rfl)
    rw [h]
    rfl
  · have h := ((c3_schema_resolution 1 Value.null
      (Value.obj [("items", Value.obj [("type", Value.str "integer")]),
                  ("type", Value.str "array")])).2.2
      (Or.inl rfl) (Or.inl rfl)).2.2.1
      (Value.obj [("type", Value.str "integer")]) (by rfl) (by rfl)
    rw [h]
    rfl

/-! ### C5: array dual-mode coercion -/

lemma except_bind_ok_arr (e : Except String (List Value)) :
    (e.bind fun items => Except.ok (Value.arr items)) = e.map Value.arr := by
  cases e <;> rfl

lemma parseListFallback_eq (schema : SchemaDef) (values : List String) :
    parseListFallback schema values =
      (values.mapM (parse_scalar_value (schema.item.getD schema))).map Value.arr := by
  rw [parseListFallback]
  show (values.mapM (parse_scalar_value (schema.item.getD schema))).bind
      (fun items => Except.ok (Value.arr items)) =
    (values.mapM (parse_scalar_value (schema.item.getD schema))).map Value.arr
  exact except_bind_ok_arr _

/-- Claim C5: for an integer-array schema the two tokens `1` and `2` coerce
to the typed array of one and two, a single bracketed token parses as a JSON
array literal yielding the same value, and in multi-token mode every token is
coerced independently against the nested item schema (the outer schema when
none is present), preserving argument order. -/
theorem c5_array_dual_mode :
    parse_list_value ⟨"array", some ⟨"integer", none⟩⟩ ["1", "2"] =
      .ok (.arr [.int 1, .int 2]) ∧
    parse_list_value ⟨"array", some ⟨"integer", none⟩⟩ ["[1,2]"] =
      .ok (.arr [.int 1, .int 2]) ∧
    (∀ (schema : SchemaDef) (v : String), strStartsWith (rustTrimStart v) "[" = true →
      parse_list_value schema [v] =
        match parseJson v with
        | some parsed => .ok parsed
        | none => .error "invalid JSON list") ∧
    (∀ (schema : SchemaDef) (values : List String),
      (∀ v, values = [v] → strStartsWith (rustTrimStart v) "[" = false) →
      parse_list_value schema values =
        (values.mapM (parse_scalar_value (schema.item.getD schema))).map Value.arr) := by
  refine ⟨rfl, rfl, ?_, ?_⟩
  · intro schema v h
    rw [parse_list_value]
    rw [if_pos h]
  · intro schema values h
    match values with
    | [] => exact parseListFallback_eq schema []
    | [v] =>
      rw [parse_list_value]
      rw [if_neg (by rw [h v rfl]; exact Bool.false_ne_true)]
      exact parseListFallback_eq schema [v]
    | v1 :: v2 :: rest =>
      exact parseListFallback_eq schema (v1 :: v2 :: rest)

/-- Witness for C5: the JSON-literal branch and the multi-token branch
applied at concrete inputs. -/
theorem c5_array_dual_mode_witness :
    parse_list_value ⟨"unknown", none⟩ ["[true]"] = .ok (.arr [.bool true]) ∧
    parse_list_value ⟨"array", some ⟨"boolean", none⟩⟩ ["yes", "no"] =
      .ok (.arr [.bool true, .bool false]) := by
  constructor
  · have h := c5_array_dual_mode.2.2.1 ⟨"unknown", none⟩ "[true]" (by rfl)
    rw [h]
    rfl
  · have h := c5_array_dual_mode.2.2.2 ⟨"array", some ⟨"boolean", none⟩⟩
      ["yes", "no"] (by intro v hv; simp at hv)
    rw [h]
    rfl

/-! ### C6: scalar coercion by kind -/

/-- Claim C6: coercion with kind integer returns the signed base-10 value and
fails exactly on tokens outside the sign-digits grammar or the i64 range;
kind number succeeds exactly on the floating grammar; kind boolean yields
true exactly for case-insensitive true/1/yes, false exactly for false/0/no,
and errors otherwise (so the token maybe fails); kind string passes the token
through; kinds object, array and unknown parse the token as JSON and fail
exactly on malformed JSON. -/
theorem c6_scalar_coercion (t : String) :
    (i64Grammar t = true → i64Fits t = true →
      parse_scalar_value ⟨"integer", none⟩ t =
        .ok (.int (if i64Neg t then -(i64Mag t : Int) else (i64Mag t : Int)))) ∧
    (i64Grammar t = false ∨ i64Fits t = false →
      parse_scalar_value ⟨"integer", none⟩ t = .error "invalid integer") ∧
    (isF64Syntax t = true →
      parse_scalar_value ⟨"number", none⟩ t = .ok (f64Value t)) ∧
    (isF64Syntax t = false →
      parse_scalar_value ⟨"number", none⟩ t = .error "invalid float literal") ∧
    ((asciiLowerStr t = "true" ∨ asciiLowerStr t = "1" ∨ asciiLowerStr t = "yes") ↔
      parse_scalar_value ⟨"boolean", none⟩ t = .ok (.bool true)) ∧
    (¬(asciiLowerStr t = "true" ∨ asciiLowerStr t = "1" ∨ asciiLowerStr t = "yes") →
      ((asciiLowerStr t = "false" ∨ asciiLowerStr t = "0" ∨ asciiLowerStr t = "no") ↔
        parse_scalar_value ⟨"boolean", none⟩ t = .ok (.bool false))) ∧
    (¬(asciiLowerStr t = "true" ∨ asciiLowerStr t = "1" ∨ asciiLowerStr t = "yes") →
      ¬(asciiLowerStr t = "false" ∨ asciiLowerStr t = "0" ∨ asciiLowerStr t = "no") →
      parse_scalar_value ⟨"boolean", none⟩ t = .error ("invalid boolean: " ++ t)) ∧
    (parse_scalar_value ⟨"string", none⟩ t = .ok (.str t)) ∧
    (∀ k, k = "object" ∨ k = "array" ∨ k = "unknown" →
      parse_scalar_value ⟨k, none⟩ t =
        match parseJson t with
        | some v => .ok v
        | none => .error "invalid JSON value") ∧
    (parse_scalar_value ⟨"boolean", none⟩ "maybe").isOk = false := by
  have hint : parse_scalar_value ⟨"integer", none⟩ t =
      (match parseI64 t with
       | some i => .ok (.int i)
       | none => .error "invalid integer") := rfl
  have hnum : parse_scalar_value ⟨"number", none⟩ t =
      (if isF64Syntax t then .ok (f64Value t) else .error "invalid float literal") := rfl
  have hboo : parse_scalar_value ⟨"boolean", none⟩ t =
      (parse_bool t).map Value.bool := rfl
  refine ⟨?_, ?_, ?_, ?_, ?_, ?_, ?_, rfl, ?_, rfl⟩
  · intro h1 h2
    rw [hint, parseI64, if_pos ⟨h1, h2⟩]
  · intro h
    rw [hint, parseI64, if_neg]
    rintro ⟨hg, hf⟩
    rcases h with h | h
    · rw [h] at hg
      exact Bool.false_ne_true hg
    · rw [h] at hf
      exact Bool.false_ne_true hf
  · intro h
    rw [hnum, if_pos h]
  · intro h
    rw [hnum, if_neg]
    rw [h]
    exact Bool.false_ne_true
  · rw [hboo, parse_bool]
    by_cases h1 : asciiLowerStr t = "true" ∨ asciiLowerStr t = "1" ∨ asciiLowerStr t = "yes"
    · rw [if_pos h1]
      exact iff_of_true h1 rfl
    · rw [if_neg h1]
      by_cases h2 : asciiLowerStr t = "false" ∨ asciiLowerStr t = "0" ∨ asciiLowerStr t = "no"
      · rw [if_pos h2]
        exact iff_of_false h1 (fun he => by simp [Except.map] at he)
      · rw [if_neg h2]
        exact iff_of_false h1 (fun he => by simp [Except.map] at he)
  · intro h1
    rw [hboo, parse_bool, if_neg h1]
    by_cases h2 : asciiLowerStr t = "false" ∨ asciiLowerStr t = "0" ∨ asciiLowerStr t = "no"
    · rw [if_pos h2]
      exact iff_of_true h2 rfl
    · rw [if_neg h2]
      exact iff_of_false h2 (fun he => by simp [Except.map] at he)
  · intro h1 h2
    rw [hboo, parse_bool, if_neg h1, if_neg h2]
    rfl
  · intro k hk
    rcases hk with hk | hk | hk <;> rw [hk] <;> rfl

/-- Witness for C6: the coercion equations applied at the tokens of the
spec examples. -/
theorem c6_scalar_coercion_witness :
    parse_scalar_value ⟨"integer", none⟩ "42" = .ok (.int 42) ∧
    parse_scalar_value ⟨"boolean", none⟩ "yes" = .ok (.bool true) ∧
    parse_scalar_value ⟨"boolean", none⟩ "maybe" =
      .error ("invalid boolean: " ++ "maybe") := by
  refine ⟨?_, ?_, ?_⟩
  · have h := (c6_scalar_coercion "42").1 rfl rfl
    rw [h]
    rfl
  · exact ((c6_scalar_coercion "yes").2.2.2.2.1).mp (Or.inr (Or.inr rfl))
  · exact (c6_scalar_coercion "maybe").2.2.2.2.2.2.1 (by decide) (by decide)

/-! ### C1: URL assembly -/

/-- The users operation of the spec example: path `/users/{id}` with one
required path parameter. -/
def usersOp : Operation :=
  { name := "get", method := "GET", path := "/users/{id}",
    summary := none, description := none,
    params := [{ name := "id", flag := "id", location := "path", required := true,
                 schema := ⟨"string", none⟩ }],
    body := none }

lemma substPathParams_unbound (m : Matches) :
    ∀ (ps : List ParamDef) (path : String),
      (∃ p ∈ ps, p.location = "path" ∧ getOne m p.name = none) →
      ∃ e, substPathParams m ps path = .error e := by
  intro ps
  induction ps with
  | nil =>
    intro path h
    obtain ⟨p, hp, _⟩ := h
    cases hp
  | cons p rest ih =>
    intro path h
    by_cases hloc : p.location = "path"
    · rcases hb : getOne m p.name with _ | v
      · refine ⟨"missing required param --" ++ p.flag, ?_⟩
        rw [substPathParams, if_pos hloc, hb]
      · obtain ⟨q, hq, hql, hqb⟩ := h
        rcases List.mem_cons.mp hq with he | hm
        · rw [he] at hqb
          rw [hqb] at hb
          cases hb
        · have := ih (replaceAll path (tokenOf p.name) (percentEncode v)) ⟨q, hm, hql, hqb⟩
          obtain ⟨e, he⟩ := this
          refine ⟨e, ?_⟩
          rw [substPathParams, if_pos hloc, hb]
          exact he
    · obtain ⟨q, hq, hql, hqb⟩ := h
      rcases List.mem_cons.mp hq with he | hm
      · rw [he] at hql
        exact absurd hql hloc
      · obtain ⟨e, he⟩ := ih path ⟨q, hm, hql, hqb⟩
        refine ⟨e, ?_⟩
        rw [substPathParams, if_neg hloc]
        exact he

lemma substPathParams_bound (m : Matches) :
    ∀ (ps : List ParamDef) (path : String),
      (∀ p ∈ ps, p.location = "path" → (getOne m p.name).isSome = true) →
      substPathParams m ps path = .ok (ps.foldl (fun acc p =>
        if p.location = "path" then
          replaceAll acc (tokenOf p.name) (percentEncode ((getOne m p.name).getD ""))
        else acc) path) := by
  intro ps
  induction ps with
  | nil =>
    intro path _
    rfl
  | cons p rest ih =>
    intro path h
    by_cases hloc : p.location = "path"
    · have hsome := h p (List.mem_cons_self _ _) hloc
      obtain ⟨v, hv⟩ := Option.isSome_iff_exists.mp hsome
      have hstep : substPathParams m (p :: rest) path =
          substPathParams m rest (replaceAll path (tokenOf p.name) (percentEncode v)) := by
        rw [substPathParams, if_pos hloc, hv]
      rw [hstep]
      rw [ih _ (fun q hq hql => h q (List.mem_cons_of_mem p hq) hql)]
      rw [List.foldl_cons, if_pos hloc, hv]
      rfl
    · rw [substPathParams, if_neg hloc]
      rw [ih _ (fun q hq hql => h q (List.mem_cons_of_mem p hq) hql)]
      rw [List.foldl_cons, if_neg hloc]

/-- Claim C1: `build_url` strips trailing slashes from the base URL, gives
the trimmed base path a leading slash when missing, appends the base path
only when the trimmed base URL does not already end with it (the example base
never duplicates the segment), substitutes every path token with the
percent-encoded bound value (space encodes as percent two zero), and errors
when any path-located parameter is unbound. -/
theorem c1_url_assembly :
    (∀ basePath : String, strStartsWith (effBasePath basePath) "/" = true) ∧
    (∀ baseUrl basePath : String,
      (strEndsWith (trimEndSlashes baseUrl) (effBasePath basePath) = true →
        apiBaseOf baseUrl basePath = trimEndSlashes baseUrl) ∧
      (strEndsWith (trimEndSlashes baseUrl) (effBasePath basePath) = false →
        apiBaseOf baseUrl basePath = trimEndSlashes baseUrl ++ effBasePath basePath)) ∧
    apiBaseOf "https://h/api/v1" "/api/v1" = "https://h/api/v1" ∧
    (∀ (baseUrl basePath : String) (op : Operation) (m : Matches),
      (∃ p ∈ op.params, p.location = "path" ∧ getOne m p.name = none) →
      ∃ e, build_url baseUrl basePath op m = .error e) ∧
    (∀ (baseUrl basePath : String) (op : Operation) (m : Matches),
      (∀ p ∈ op.params, p.location = "path" → (getOne m p.name).isSome = true) →
      build_url baseUrl basePath op m =
        (appendQueryAll m op.params []).map fun pairs =>
          (apiBaseOf baseUrl basePath ++ op.params.foldl (fun acc p =>
            if p.location = "path" then
              replaceAll acc (tokenOf p.name) (percentEncode ((getOne m p.name).getD ""))
            else acc) op.path, pairs)) ∧
    percentEncode "a b" = "a%20b" ∧
    build_url "https://h/api/v1" "/api/v1" usersOp [("id", ["a b"])] =
      .ok ("https://h/api/v1/users/a%20b", []) := by
  refine ⟨?_, ?_, rfl, ?_, ?_, rfl, rfl⟩
  · intro basePath
    rw [effBasePath]
    by_cases h : strStartsWith (rustTrim basePath) "/" = true
    · rw [if_pos h]
      exact h
    · rw [if_neg h]
      rw [strStartsWith]
      have h2 : ("/" ++ rustTrim basePath).toList = '/' :: (rustTrim basePath).toList := by
        show ("/" ++ rustTrim basePath).data = '/' :: (rustTrim basePath).data
        rw [String.data_append]
        rfl
      rw [h2]
      show List.isPrefixOf ['/'] ('/' :: (rustTrim basePath).toList) = true
      rw [List.isPrefixOf]
      simp
  · intro baseUrl basePath
    constructor
    · intro h
      rw [apiBaseOf]
      simp only [h, if_true]
    · intro h
      rw [apiBaseOf]
      simp only [h, Bool.false_eq_true, if_false]
  · intro baseUrl basePath op m h
    obtain ⟨e, he⟩ := substPathParams_unbound m op.params op.path h
    refine ⟨e, ?_⟩
    show (substPathParams m op.params op.path).bind _ = Except.error e
    rw [he]
    rfl
  · intro baseUrl basePath op m h
    have hs := substPathParams_bound m op.params op.path h
    show (substPathParams m op.params op.path).bind _ = _
    rw [hs]
    show (appendQueryAll m op.params []).bind _ = _
    cases appendQueryAll m op.params [] <;> rfl

/-- Witness for C1: the unbound-parameter failure and the bound-parameter
assembly applied at concrete inputs. -/
theorem c1_url_assembly_witness :
    (∃ e, build_url "https://h" "/api/v1" usersOp [] = .error e) ∧
    build_url "https://h" "api/v1" usersOp [("id", ["42"])] =
      .ok ("https://h/api/v1/users/42", []) := by
  constructor
  · exact c1_url_assembly.2.2.2.1 "https://h" "/api/v1" usersOp []
      ⟨{ name := "id", flag := "id", location := "path", required := true,
         schema := ⟨"string", none⟩ }, List.mem_cons_self _ _, rfl, rfl⟩
  · have h := c1_url_assembly.2.2.2.2.1 "https://h" "api/v1" usersOp
      [("id", ["42"])] (by
        intro p hp hl
        cases hp with
        | head => rfl
        | tail _ hm => cases hm)
    rw [h]
    rfl

/-! ### C10: query pairs use the declared parameter name -/

lemma parse_list_for_query_multi (schema : SchemaDef) (values : List String)
    (h : ∀ v, values = [v] → strStartsWith (rustTrimStart v) "[" = false) :
    parse_list_for_query schema values = queryListFallback schema values := by
  match values with
  | [] => rfl
  | [v] =>
    rw [parse_list_for_query]
    rw [if_neg (by rw [h v rfl]; exact Bool.false_ne_true)]
  | v1 :: v2 :: rest => rfl

/-- Claim C10: every query pair appended by `append_query_param` uses the
parameter's declared name as the key (never the normalized flag, which is a
distinct string for a camel-case name such as workflowId); array parameters
contribute one pair per coerced element in argument order, scalar parameters
one raw pair; the generated argument is identified by the declared name and
exposed under the flag. -/
theorem c10_query_param_keys (p : ParamDef) (m : Matches)
    (out : List (String × String)) :
    (∀ res, append_query_param out p m = .ok res →
      ∃ pairs, res = out ++ pairs ∧ ∀ kv ∈ pairs, kv.1 = p.name) ∧
    (p.schema.kind ≠ "array" → ∀ v, getOne m p.name = some v →
      append_query_param out p m = .ok (out ++ [(p.name, v)])) ∧
    (p.schema.kind = "array" → ∀ values, getMany m p.name = some values →
      (∀ v, values = [v] → strStartsWith (rustTrimStart v) "[" = false) →
      append_query_param out p m =
        (values.mapM fun v =>
          (parse_scalar_value (p.schema.item.getD p.schema) v).map
            value_to_query_string).map
          fun parsed => out ++ parsed.map fun s => (p.name, s)) ∧
    ((build_param_arg p).id = p.name ∧ (build_param_arg p).long = p.flag) ∧
    to_kebab "workflowId" = "workflow-id" := by
  refine ⟨?_, ?_, ?_, ⟨rfl, rfl⟩, rfl⟩
  · intro res hres
    by_cases hk : p.schema.kind = "array"
    · rw [append_query_param, if_pos hk] at hres
      rcases hb : getMany m p.name with _ | values
      · simp only [hb] at hres
        cases hres
        exact ⟨[], (List.append_nil out).symm, by intro kv hkv; cases hkv⟩
      · simp only [hb] at hres
        rcases hq : parse_list_for_query p.schema values with e | parsed
        · rw [hq] at hres
          simp only [Except.map] at hres
          cases hres
        · rw [hq] at hres
          simp only [Except.map] at hres
          cases hres
          refine ⟨parsed.map fun s => (p.name, s), rfl, ?_⟩
          intro kv hkv
          obtain ⟨s, _, hs⟩ := List.mem_map.mp hkv
          rw [← hs]
    · rw [append_query_param, if_neg hk] at hres
      rcases hb : getOne m p.name with _ | v
      · simp only [hb] at hres
        cases hres
        exact ⟨[], (List.append_nil out).symm, by intro kv hkv; cases hkv⟩
      · simp only [hb] at hres
        cases hres
        exact ⟨[(p.name, v)], rfl, by
          intro kv hkv
          rcases List.mem_cons.mp hkv with he | hm
          · rw [he]
          · cases hm⟩
  · intro hk v hv
    rw [append_query_param, if_neg hk]
    simp only [hv]
  · intro hk values hv hmulti
    rw [append_query_param, if_pos hk]
    simp only [hv]
    rw [parse_list_for_query_multi p.schema values hmulti]
    rfl

/-- Witness for C10: a query parameter declared `workflowId` is bound under
the flag `workflow-id` but serialized under the declared name. -/
theorem c10_query_param_keys_witness :
    append_query_param []
        { name := "workflowId", flag := to_kebab "workflowId", location := "query",
          required := false, schema := ⟨"string", none⟩ }
        [("workflowId", ["w1"])] = .ok [("workflowId", "w1")] ∧
    to_kebab "workflowId" ≠ "workflowId" := by
  constructor
  · have h := (c10_query_param_keys
      { name := "workflowId", flag := to_kebab "workflowId", location := "query",
        required := false, schema := ⟨"string", none⟩ }
      [("workflowId", ["w1"])] []).2.1 (by decide) "w1" rfl
    rw [h]
    rfl
  · decide

/-! ### C2: request body construction -/

/-- Claim C2: `build_body` rejects a bound raw body or body file when the
operation declares no body; with a declared body the two sources are mutually
exclusive, a single bound source is parsed as JSON and used verbatim, the
input-field object is used when the schema is an object with fields and some
field is bound, and otherwise a required body fails with the body-required
error while an optional one yields no body. -/
theorem c2_body_construction (fs : String → Option String) (op : Operation)
    (m : Matches) :
    (op.body = none →
      (((getOne m "body").isSome = true ∨ (getOne m "body-file").isSome = true) →
        build_body fs op m = .error "request does not accept a body") ∧
      (getOne m "body" = none → getOne m "body-file" = none →
        build_body fs op m = .ok none)) ∧
    (∀ b, op.body = some b →
      (∀ r f, getOne m "body" = some r → getOne m "body-file" = some f →
        build_body fs op m = .error "use only one of --body or --body-file") ∧
      (∀ r, getOne m "body" = some r → getOne m "body-file" = none →
        build_body fs op m =
          (match parseJson r with
           | some parsed => .ok (some parsed)
           | none => .error "invalid JSON body")) ∧
      (∀ f, getOne m "body" = none → getOne m "body-file" = some f →
        build_body fs op m =
          (match fs f with
           | none => .error ("failed to read body file " ++ f)
           | some contents =>
             match parseJson contents with
             | some parsed => .ok (some parsed)
             | none => .error "invalid JSON body file")) ∧
      (getOne m "body" = none → getOne m "body-file" = none →
        (∀ v, b.schema.kind = "object" → b.inputFields.isEmpty = false →
          build_body_from_inputs b m = .ok (some v) →
          build_body fs op m = .ok (some v)) ∧
        ((b.schema.kind ≠ "object" ∨ b.inputFields.isEmpty = true ∨
            build_body_from_inputs b m = .ok none) →
          (b.required = true → build_body fs op m = .error "request body required") ∧
          (b.required = false → build_body fs op m = .ok none)))) := by
  constructor
  · intro hb
    constructor
    · intro h
      simp only [build_body, hb]
      rw [if_pos h]
    · intro h1 h2
      simp only [build_body, hb]
      rw [if_neg]
      rintro (h | h)
      · rw [h1] at h
        cases h
      · rw [h2] at h
        cases h
  · intro b hb
    refine ⟨?_, ?_, ?_, ?_⟩
    · intro r f hr hf
      simp only [build_body, hb, hr, hf]
    · intro r hr hf
      simp only [build_body, hb, hr, hf]
    · intro f hr hf
      simp only [build_body, hb, hr, hf]
    · intro hr hf
      constructor
      · intro v hkind hne hbi
        simp only [build_body, hb, hr, hf]
        rw [if_pos ⟨hkind, by rw [hne]; exact Bool.false_ne_true⟩]
        rw [hbi]
      · intro hdis
        have hfrom : (if b.schema.kind = "object" ∧ ¬ b.inputFields.isEmpty = true
            then build_body_from_inputs b m else Except.ok none) = Except.ok none := by
          rcases hdis with hd | hd | hd
          · rw [if_neg (fun hc => hd hc.1)]
          · rw [if_neg (fun hc => hc.2 hd)]
          · by_cases hc : b.schema.kind = "object" ∧ ¬ b.inputFields.isEmpty = true
            · rw [if_pos hc]
              exact hd
            · rw [if_neg hc]
        constructor
        · intro hreq
          simp only [build_body, hb, hr, hf]
          rw [hfrom]
          simp only [hreq, if_true]
        · intro hreq
          simp only [build_body, hb, hr, hf]
          rw [hfrom]
          simp only [hreq, Bool.false_eq_true, if_false]

/-- An operation with a required object body and one optional input field. -/
def reqBodyField : InputField :=
  { name := "name", flag := "input-name", required := false,
    schema := ⟨"string", none⟩ }

def reqBodyDef : BodyDef :=
  { required := true, contentType := "application/json",
    schema := ⟨"object", none⟩, inputFields := [reqBodyField] }

def reqBodyOp : Operation :=
  { name := "create", method := "POST", path := "/w", summary := none,
    description := none, params := [], body := some reqBodyDef }

/-- An operation that declares no request body. -/
def noBodyOp : Operation :=
  { name := "get", method := "GET", path := "/w", summary := none,
    description := none, params := [], body := none }

/-- Witness for C2: an operation with a required object body, no raw body,
no body file and no bound input field fails with the body-required error; an
operation with no declared body rejects a bound raw body. -/
theorem c2_body_construction_witness :
    build_body (fun _ => none) reqBodyOp [] = .error "request body required" ∧
    build_body (fun _ => none) noBodyOp [("body", ["1"])] =
      .error "request does not accept a body" := by
  constructor
  · exact ((((c2_body_construction (fun _ => none) reqBodyOp []).2 _ rfl).2.2.2
      rfl rfl).2 (Or.inr (Or.inr rfl))).1 rfl
  · exact ((c2_body_construction (fun _ => none) noBodyOp [("body", ["1"])]).1 rfl).1
      (Or.inl rfl)

/-! ### C9: the output view is rendered before a non-success failure -/

/-- Claim C9: for every obtained response the chosen output view (raw
envelope when the raw flag is set, else the body view) is always the first
emitted event; a 2xx status then reports success with no further event, and
a non-2xx status reports failure only after that print, as a trailing
failure event and an error result. -/
theorem c9_output_before_failure (pretty raw : Bool) (status : Nat)
    (headers : List (String × String)) (text : String) :
    ((runAfterResponse pretty raw (mkHttpResponse status headers text)).1.head? =
      some (.printed pretty
        (if raw then (mkHttpResponse status headers text).raw
         else (mkHttpResponse status headers text).body))) ∧
    (200 ≤ status ∧ status < 300 →
      (runAfterResponse pretty raw (mkHttpResponse status headers text)).1 =
        [.printed pretty
          (if raw then (mkHttpResponse status headers text).raw
           else (mkHttpResponse status headers text).body)] ∧
      (runAfterResponse pretty raw (mkHttpResponse status headers text)).2 = .ok ()) ∧
    (¬(200 ≤ status ∧ status < 300) →
      (runAfterResponse pretty raw (mkHttpResponse status headers text)).1 =
        [.printed pretty
          (if raw then (mkHttpResponse status headers text).raw
           else (mkHttpResponse status headers text).body),
         .failed status] ∧
      (runAfterResponse pretty raw (mkHttpResponse status headers text)).2 =
        .error ("http error: " ++ toString status)) := by
  by_cases h2 : 200 ≤ status ∧ status < 300
  · have hs : (mkHttpResponse status headers text).ok = true := by
      show statusIsSuccess status = true
      simp [statusIsSuccess, h2.1, h2.2]
    refine ⟨?_, fun _ => ?_, fun hc => absurd h2 hc⟩
    · simp only [runAfterResponse, hs, if_true]
      rfl
    · simp only [runAfterResponse, hs, if_true]
      exact ⟨trivial, trivial⟩
  · have hs : (mkHttpResponse status headers text).ok = false := by
      show statusIsSuccess status = false
      simp only [statusIsSuccess]
      simpa using h2
    refine ⟨?_, fun hc => absurd hc h2, fun _ => ?_⟩
    · simp only [runAfterResponse, hs, Bool.false_eq_true, if_false]
      rfl
    · simp only [runAfterResponse, hs, Bool.false_eq_true, if_false]
      exact ⟨rfl, rfl⟩

/-- Witness for C9: a 404 response prints the body view first and then
reports failure; a 200 response with the same body reports success. -/
theorem c9_output_before_failure_witness :
    ((runAfterResponse false false (mkHttpResponse 404 [] "{}")).1 =
      [.printed false (mkHttpResponse 404 [] "{}").body, .failed 404] ∧
     (runAfterResponse false false (mkHttpResponse 404 [] "{}")).2 =
      .error ("http error: " ++ toString 404)) ∧
    (runAfterResponse false false (mkHttpResponse 200 [] "{}")).2 = .ok () := by
  constructor
  · exact (c9_output_before_failure false false 404 [] "{}").2.2 (by omega)
  · exact ((c9_output_before_failure false false 200 [] "{}").2.1 (by omega)).2

/-! ### C4: command-tree ordering invariants -/

lemma strLtL_irrefl : ∀ l : List Char, strLtL l l = false := by
  intro l
  induction l with
  | nil => rfl
  | cons c cs ih =>
    rw [strLtL]
    rw [if_neg (by omega : ¬ c.toNat < c.toNat)]
    rw [if_neg (by omega : ¬ c.toNat < c.toNat)]
    exact ih

lemma strLtL_trans : ∀ (a b c : List Char), strLtL a b = true → strLtL b c = true →
    strLtL a c = true := by
  intro a
  induction a with
  | nil =>
    intro b c h1 h2
    cases b with
    | nil => cases h1
    | cons b0 bs =>
      cases c with
      | nil =>
        rw [strLtL] at h2
        cases h2
      | cons c0 cs => rfl
  | cons a0 as ih =>
    intro b c h1 h2
    cases b with
    | nil =>
      rw [strLtL] at h1
      cases h1
    | cons b0 bs =>
      cases c with
      | nil =>
        rw [strLtL] at h2
        cases h2
      | cons c0 cs =>
        rw [strLtL] at h1 h2 ⊢
        by_cases hab : a0.toNat < b0.toNat
        · by_cases hbc : b0.toNat < c0.toNat
          · rw [if_pos (by omega : a0.toNat < c0.toNat)]
          · rw [if_neg hbc] at h2
            by_cases hcb : c0.toNat < b0.toNat
            · rw [if_pos hcb] at h2
              cases h2
            · rw [if_pos (by omega : a0.toNat < c0.toNat)]
        · rw [if_neg hab] at h1
          by_cases hba : b0.toNat < a0.toNat
          · rw [if_pos hba] at h1
            cases h1
          · rw [if_neg hba] at h1
            by_cases hbc : b0.toNat < c0.toNat
            · rw [if_pos (by omega : a0.toNat < c0.toNat)]
            · rw [if_neg hbc] at h2
              by_cases hcb : c0.toNat < b0.toNat
              · rw [if_pos hcb] at h2
                cases h2
              · rw [if_neg hcb] at h2
                rw [if_neg (by omega : ¬ a0.toNat < c0.toNat)]
                rw [if_neg (by omega : ¬ c0.toNat < a0.toNat)]
                exact ih bs cs h1 h2

lemma strLtL_eq_of_both_false : ∀ (a b : List Char), strLtL a b = false →
    strLtL b a = false → a = b := by
  intro a
  induction a with
  | nil =>
    intro b h1 _
    cases b with
    | nil => rfl
    | cons b0 bs => cases h1
  | cons a0 as ih =>
    intro b h1 h2
    cases b with
    | nil => cases h2
    | cons b0 bs =>
      rw [strLtL] at h1 h2
      by_cases hab : a0.toNat < b0.toNat
      · rw [if_pos hab] at h1
        cases h1
      · by_cases hba : b0.toNat < a0.toNat
        · rw [if_pos hba] at h2
          cases h2
        · rw [if_neg hab, if_neg hba] at h1
          rw [if_neg hba, if_neg hab] at h2
          have hc : a0 = b0 := by
            apply Char.ext
            have hn : a0.toNat = b0.toNat := by omega
            exact UInt32.ext hn
          rw [hc, ih bs h1 h2]

lemma strLt_irrefl (a : String) : strLt a a = false :=
  strLtL_irrefl a.toList

lemma strLt_trans {a b c : String} (h1 : strLt a b = true) (h2 : strLt b c = true) :
    strLt a c = true :=
  strLtL_trans a.toList b.toList c.toList h1 h2

lemma strLt_eq_of_both_false {a b : String} (h1 : strLt a b = false)
    (h2 : strLt b a = false) : a = b :=
  String.toList_inj.mp (strLtL_eq_of_both_false a.toList b.toList h1 h2)

lemma strLt_asymm {a b : String} (h : strLt a b = true) : strLt b a = false := by
  cases hb : strLt b a with
  | false => rfl
  | true =>
    have := strLt_trans h hb
    rw [strLt_irrefl a] at this
    cases this

lemma strLt_true_of_false_ne {a b : String} (h : strLt a b = false) (hne : a ≠ b) :
    strLt b a = true := by
  cases hb : strLt b a with
  | true => rfl
  | false => exact absurd (strLt_eq_of_both_false h hb) hne

lemma strLt_neg_trans {a b c : String} (h1 : strLt a b = false)
    (h2 : strLt b c = false) : strLt a c = false := by
  cases hac : strLt a c with
  | false => rfl
  | true =>
    by_cases hab : a = b
    · rw [hab] at hac
      rw [hac] at h2
      cases h2
    · have hba := strLt_true_of_false_ne h1 hab
      have := strLt_trans hba hac
      rw [this] at h2
      cases h2

lemma mem_insertSortedBy {α : Type} (key : α → String) (x z : α) :
    ∀ l : List α, z ∈ insertSortedBy key x l → z = x ∨ z ∈ l := by
  intro l
  induction l with
  | nil =>
    intro h
    rcases List.mem_singleton.mp h with he
    exact Or.inl he
  | cons y ys ih =>
    intro h
    rw [insertSortedBy] at h
    by_cases hc : strLt (key y) (key x) = true
    · rw [if_pos hc] at h
      rcases List.mem_cons.mp h with he | hm
      · exact Or.inr (List.mem_cons.mpr (Or.inl he))
      · rcases ih hm with he | hm2
        · exact Or.inl he
        · exact Or.inr (List.mem_cons.mpr (Or.inr hm2))
    · rw [if_neg hc] at h
      rcases List.mem_cons.mp h with he | hm
      · exact Or.inl he
      · exact Or.inr hm

lemma insertSortedBy_pairwise {α : Type} (key : α → String) (x : α) :
    ∀ l : List α, List.Pairwise (fun a b => strLt (key b) (key a) = false) l →
      List.Pairwise (fun a b => strLt (key b) (key a) = false)
        (insertSortedBy key x l) := by
  intro l
  induction l with
  | nil =>
    intro _
    exact List.pairwise_singleton _ x
  | cons y ys ih =>
    intro hp
    obtain ⟨hy, hys⟩ := List.pairwise_cons.mp hp
    rw [insertSortedBy]
    by_cases hc : strLt (key y) (key x) = true
    · rw [if_pos hc]
      refine List.pairwise_cons.mpr ⟨?_, ih hys⟩
      intro z hz
      rcases mem_insertSortedBy key x z ys hz with he | hm
      · rw [he]
        exact strLt_asymm hc
      · exact hy z hm
    · rw [if_neg hc]
      refine List.pairwise_cons.mpr ⟨?_, hp⟩
      intro z hz
      rcases List.mem_cons.mp hz with he | hm
      · rw [he]
        exact Bool.not_eq_true _ |>.mp hc
      · exact strLt_neg_trans (hy z hm) (Bool.not_eq_true _ |>.mp hc)

lemma sortByKey_pairwise {α : Type} (key : α → String) (l : List α) :
    List.Pairwise (fun a b => strLt (key b) (key a) = false) (sortByKey key l) := by
  induction l with
  | nil => exact List.Pairwise.nil
  | cons x xs ih => exact insertSortedBy_pairwise key x (sortByKey key xs) ih

lemma mem_mapPush_keys (k : String) (op : Operation) :
    ∀ (m : List (String × List Operation)) (e : String × List Operation),
      e ∈ mapPush m k op → e.1 = k ∨ e.1 ∈ m.map Prod.fst := by
  intro m
  induction m with
  | nil =>
    intro e he
    rw [List.mem_singleton.mp he]
    exact Or.inl rfl
  | cons kv rest ih =>
    obtain ⟨k', ops⟩ := kv
    intro e he
    rw [mapPush] at he
    by_cases h1 : strLt k k' = true
    · rw [if_pos h1] at he
      rcases List.mem_cons.mp he with he2 | hm
      · rw [he2]
        exact Or.inl rfl
      · rcases List.mem_cons.mp hm with he3 | hm2
        · rw [he3]
          exact Or.inr (List.mem_cons.mpr (Or.inl rfl))
        · exact Or.inr (List.mem_cons.mpr (Or.inr (List.mem_map_of_mem _ hm2)))
    · rw [if_neg h1] at he
      by_cases h2 : k = k'
      · rw [if_pos h2] at he
        rcases List.mem_cons.mp he with he2 | hm
        · rw [he2]
          exact Or.inr (List.mem_cons.mpr (Or.inl rfl))
        · exact Or.inr (List.mem_cons.mpr (Or.inr (List.mem_map_of_mem _ hm)))
      · rw [if_neg h2] at he
        rcases List.mem_cons.mp he with he2 | hm
        · rw [he2]
          exact Or.inr (List.mem_cons.mpr (Or.inl rfl))
        · rcases ih e hm with he3 | hm2
          · exact Or.inl he3
          · exact Or.inr (List.mem_cons.mpr (Or.inr hm2))

lemma mapPush_pairwise (k : String) (op : Operation) :
    ∀ m : List (String × List Operation),
      List.Pairwise (fun a b => strLt a.1 b.1 = true) m →
      List.Pairwise (fun a b => strLt a.1 b.1 = true) (mapPush m k op) := by
  intro m
  induction m with
  | nil =>
    intro _
    exact List.pairwise_singleton _ _
  | cons kv rest ih =>
    obtain ⟨k', ops⟩ := kv
    intro hp
    obtain ⟨hhead, htail⟩ := List.pairwise_cons.mp hp
    rw [mapPush]
    by_cases h1 : strLt k k' = true
    · rw [if_pos h1]
      refine List.pairwise_cons.mpr ⟨?_, hp⟩
      intro e he
      rcases List.mem_cons.mp he with he2 | hm
      · rw [he2]
        exact h1
      · exact strLt_trans h1 (hhead e hm)
    · rw [if_neg h1]
      by_cases h2 : k = k'
      · rw [if_pos h2]
        exact List.pairwise_cons.mpr ⟨hhead, htail⟩
      · rw [if_neg h2]
        refine List.pairwise_cons.mpr ⟨?_, ih htail⟩
        intro e he
        rcases mem_mapPush_keys k op rest e he with he3 | hm
        · rw [he3]
          exact strLt_true_of_false_ne (Bool.not_eq_true _ |>.mp h1) h2
        · rcases List.mem_map.mp hm with ⟨x, hx, hfx⟩
          rw [← hfx]
          exact hhead x hx

lemma collectMethods_pairwise (fuel : Nat) (doc : Value) (path : String)
    (item : Value) (pathParams : List Value) :
    ∀ (ms : List String) (acc acc' : List (String × List Operation)),
      List.Pairwise (fun a b => strLt a.1 b.1 = true) acc →
      collectMethods fuel doc path item pathParams ms acc = some (.ok acc') →
      List.Pairwise (fun a b => strLt a.1 b.1 = true) acc' := by
  intro ms
  induction ms with
  | nil =>
    intro acc acc' hp heq
    rw [collectMethods] at heq
    simp only [Option.some.injEq] at heq
    cases heq
    exact hp
  | cons mth rest ih =>
    intro acc acc' hp heq
    rw [collectMethods] at heq
    rcases hg : item.get mth with _ | opv
    · rw [hg] at heq
      exact ih acc acc' hp heq
    · simp only [hg] at heq
      rcases ho : opv.asObj with _ | opObj
      · simp only [ho] at heq
        exact absurd heq (by simp)
      · simp only [ho] at heq
        rcases hb : buildOpFor fuel doc path mth opObj pathParams with _ | ro
        · rw [hb] at heq
          cases heq
        · obtain ⟨resource, op⟩ := ro
          rw [hb] at heq
          exact ih _ acc' (mapPush_pairwise resource op acc hp) heq

lemma collectOps_pairwise (fuel : Nat) (doc : Value) :
    ∀ (entries : List (String × Value)) (acc acc' : List (String × List Operation)),
      List.Pairwise (fun a b => strLt a.1 b.1 = true) acc →
      collectOps fuel doc entries acc = some (.ok acc') →
      List.Pairwise (fun a b => strLt a.1 b.1 = true) acc' := by
  intro entries
  induction entries with
  | nil =>
    intro acc acc' hp heq
    rw [collectOps] at heq
    simp only [Option.some.injEq] at heq
    cases heq
    exact hp
  | cons pi rest ih =>
    obtain ⟨path, item⟩ := pi
    intro acc acc' hp heq
    rw [collectOps] at heq
    rcases hc : collectMethods fuel doc path item
        (((item.get "parameters").bind Value.asArr).getD []) methodsList acc
      with _ | res
    · rw [hc] at heq
      cases heq
    · rw [hc] at heq
      cases res with
      | error e => simp only [Option.some.injEq] at heq; cases heq
      | ok acc2 =>
        exact ih acc2 acc'
          (collectMethods_pairwise fuel doc path item _ methodsList acc acc2 hp hc) heq

/-- Claim C4 (amended): the built tree has its resources strictly sorted by
name (hence resource names unique) and each resource's operations sorted by
name; operation-name uniqueness within a resource does not hold in general
(see the counterexample), since distinct path-method entries with the same
tag and operation id produce duplicate names. -/
theorem c4_tree_well_formed (fuel : Nat) (doc : Value) (t : CommandTree)
    (heq : buildTree fuel doc = some (.ok t)) :
    List.Pairwise (fun a b : Resource => strLt a.name b.name = true) t.resources ∧
    (t.resources.map Resource.name).Nodup ∧
    ∀ r ∈ t.resources, List.Pairwise
      (fun a b : Operation => strLt b.name a.name = false) r.ops := by
  rw [buildTree] at heq
  rcases hp : (doc.get "paths").bind Value.asObj with _ | paths
  · rw [hp] at heq
    simp at heq
  · simp only [hp] at heq
    rcases hc : collectOps fuel doc paths [] with _ | res
    · rw [hc] at heq
      cases heq
    · rw [hc] at heq
      cases res with
      | error e => simp only [Option.some.injEq] at heq; cases heq
      | ok acc =>
        simp only [Option.some.injEq, Except.ok.injEq] at heq
        have hacc := collectOps_pairwise fuel doc paths [] acc List.Pairwise.nil hc
        have hres : t.resources = acc.map fun kv =>
            { name := kv.1, ops := sortByKey Operation.name kv.2 : Resource } := by
          rw [← heq]
        refine ⟨?_, ?_, ?_⟩
        · rw [hres]
          exact List.Pairwise.map _ (fun a b h => h) hacc
        · rw [hres, List.map_map]
          refine List.pairwise_map.mpr ?_
          refine hacc.imp ?_
          intro a b h he
          have he2 : a.1 = b.1 := he
          rw [he2, strLt_irrefl] at h
          cases h
        · intro r hr
          rw [hres] at hr
          obtain ⟨kv, _, hkv⟩ := List.mem_map.mp hr
          rw [← hkv]
          exact sortByKey_pairwise Operation.name kv.2

/-- A document with two paths whose operations share the tag and operation
id, producing one resource with two identically named operations. -/
def dupDoc : Value := Value.obj
  [("paths", Value.obj
    [("/a", Value.obj [("get", Value.obj
        [("operationId", Value.str "x"), ("tags", Value.arr [Value.str "t"])])]),
     ("/b", Value.obj [("get", Value.obj
        [("operationId", Value.str "x"), ("tags", Value.arr [Value.str "t"])])])])]

/-- The tree the generator builds from `dupDoc`. -/
def dupTree : CommandTree :=
  { version := "0", basePath := "/api/v1",
    resources := [{ name := "t", ops :=
      [{ name := "x", method := "GET", path := "/a", summary := none,
         description := none, params := [], body := none },
       { name := "x", method := "GET", path := "/b", summary := none,
         description := none, params := [], body := none }] }] }

/-- Claim C4, counterexample: the generator does not deduplicate operation
names — two path-method entries with the same tag and operation id yield a
resource whose operation names are not unique, against the claimed
by-construction uniqueness. -/
theorem c4_counterexample :
    buildTree 40 dupDoc = some (.ok dupTree) ∧
    (dupTree.resources.map fun r => r.ops.map Operation.name) = [["x", "x"]] ∧
    ¬ (["x", "x"] : List String).Nodup := by
  refine ⟨rfl, rfl, by decide⟩

/-- Witness for C4: the ordering invariants applied to the concrete built
tree. -/
theorem c4_tree_well_formed_witness :
    buildTree 40 dupDoc = some (.ok dupTree) ∧
    (List.Pairwise (fun a b : Resource => strLt a.name b.name = true)
        dupTree.resources ∧
      (dupTree.resources.map Resource.name).Nodup ∧
      ∀ r ∈ dupTree.resources, List.Pairwise
        (fun a b : Operation => strLt b.name a.name = false) r.ops) :=
  ⟨rfl, c4_tree_well_formed 40 dupDoc dupTree rfl⟩

end N8n
